import Mathlib

/-!
Shallow embedding of the `lzo` Go package (github.com/woozymasta/lzo), an LZO1X
codec, together with proofs about the claims of its specification.

Conventions of the embedding:
* Byte buffers are `List Nat`; every read the Go code performs is guarded by the
  same bounds checks as the source, so the default value of out-of-range reads
  is never observed on the paths the Go code takes.
* Go `int` arithmetic is modelled with `Nat` (all quantities involved are
  non-negative on every path of the source; machine-width overflow would need
  inputs of size at least 2^31, far outside the domain of the claims).
* Go `copy` has memmove semantics: every read sees the contents from before the
  call.  `copyWithin`/`copyFromSrc` read from a snapshot accordingly.
* Fallible code returns `Except LzoErr` or carries an `Option LzoErr` field,
  mirroring the Go `error` results.
-/

namespace Lzo

/-- The error sentinels of the package (errors.go is referenced by every file). -/
inductive LzoErr where
  | emptyInput
  | optionsRequired
  | inputOverrun
  | outputOverrun
  | lookBehindUnderrun
  | unexpectedEOF
  | inputTooLarge
  | compressInternal
deriving DecidableEq, Repr

instance {ε α : Type} [DecidableEq ε] [DecidableEq α] : DecidableEq (Except ε α)
  | .ok a, .ok b =>
    if h : a = b then .isTrue (by rw [h]) else .isFalse (fun hc => by cases hc; exact h rfl)
  | .error a, .error b =>
    if h : a = b then .isTrue (by rw [h]) else .isFalse (fun hc => by cases hc; exact h rfl)
  | .ok _, .error _ => .isFalse (fun hc => by cases hc)
  | .error _, .ok _ => .isFalse (fun hc => by cases hc)

/-- A Go slice read `l[i]`; all uses are bounds-guarded exactly as in the source. -/
def listGet (l : List Nat) (i : Nat) : Nat := l.getD i 0

/-- Go `copy(dst[dstOff:dstOff+n], dst[srcOff:srcOff+n])`:
memmove semantics, all reads see the pre-call contents of `dst`. -/
def copyWithin (dst : List Nat) (dstOff srcOff n : Nat) : List Nat :=
  (List.range n).foldl (fun d i => d.set (dstOff + i) (listGet dst (srcOff + i))) dst

/-- Go `copy(dst[dstOff:dstOff+n], src[srcOff:srcOff+n])` for distinct slices. -/
def copyFromSrc (dst src : List Nat) (dstOff srcOff n : Nat) : List Nat :=
  (List.range n).foldl (fun d i => d.set (dstOff + i) (listGet src (srcOff + i))) dst

/-- The doubling loop of `copyBackRef` (copy.go lines 31-34):
`for copied < length { n := copy(dst[outputPos+copied:outputPos+length], dst[outputPos:outputPos+copied]); copied += n }`.
Structural recursion on a fuel that the callers set to `length`; every
iteration grows `copied` by at least one, so the fuel never runs out.  When
`n = 0` (only possible when `copied = 0`, i.e. `dist = 0` with a positive
length) the Go loop never terminates; that dead branch returns `dst` here. -/
def backRefLoop (outputPos length : Nat) : Nat → List Nat → Nat → List Nat
  | 0, dst, _ => dst
  | fuel + 1, dst, copied =>
    if copied < length then
      let n := min (length - copied) copied
      if n = 0 then dst
      else backRefLoop outputPos length fuel
        (copyWithin dst (outputPos + copied) outputPos n) (copied + n)
    else dst

/-- copy.go `copyBackRef` (chunk-doubling implementation): copies `length` bytes
from `dst[outputPos-dist:]` to `dst[outputPos:]`, expanding overlap by doubling. -/
def copyBackRef (dst : List Nat) (outputPos dist length : Nat) : Except LzoErr (List Nat) :=
  -- mPos := outputPos - dist; if mPos < 0 { return ErrLookBehindUnderrun }
  if outputPos < dist then .error .lookBehindUnderrun
  -- if outputPos+length > len(dst) { return ErrOutputOverrun }
  else if dst.length < outputPos + length then .error .outputOverrun
  -- if dist >= length { copy(dst[outputPos:outputPos+length], dst[mPos:mPos+length]) }
  else if length ≤ dist then .ok (copyWithin dst outputPos (outputPos - dist) length)
  else
    -- copy(dst[outputPos:outputPos+dist], dst[mPos:outputPos]); then double
    .ok (backRefLoop outputPos length length (copyWithin dst outputPos (outputPos - dist) dist) dist)

/-- The older byte-by-byte `copyBackRef` (same checks, sequential overlap loop):
`for i := range length { dst[outputPos+i] = dst[mPos+i] }`. -/
def copyBackRefSeq (dst : List Nat) (outputPos dist length : Nat) : Except LzoErr (List Nat) :=
  if outputPos < dist then .error .lookBehindUnderrun
  else if dst.length < outputPos + length then .error .outputOverrun
  else if length ≤ dist then .ok (copyWithin dst outputPos (outputPos - dist) length)
  else .ok ((List.range length).foldl
    (fun d i => d.set (outputPos + i) (listGet d (outputPos - dist + i))) dst)

/-- The oracle of the specification: perform `dst[outPos+i] = dst[outPos-dist+i]`
for `i = 0 .. length-1` in increasing order, each read seeing earlier writes. -/
def oracleCopy (dst : List Nat) (outputPos dist length : Nat) : List Nat :=
  (List.range length).foldl
    (fun d i => d.set (outputPos + i) (listGet d (outputPos - dist + i))) dst

/-! ## The decoder (decompress.go) -/

/-- The decoder contexts in which an instruction byte is interpreted.  They
correspond to the `decodeState` values of decompress.go: `beginLoop` is
`stateBeginLoop`, `firstLiteralRun` is `stateFirstLiteralRun`, and `inMatch` is
`stateMatch` (the state reached from `stateMatchNext`).  `stateMatchDone` and
`stateMatchEnd` are handled inline by `matchDoneStep`. -/
inductive DCtx where
  | beginLoop
  | firstLiteralRun
  | inMatch
deriving DecidableEq, Repr

/-- The result of `decompressCore`: the destination buffer and the Go triple
`(outWritten, inConsumed, err)`. -/
structure DRes where
  dst : List Nat
  outW : Nat
  inC : Nat
  err : Option LzoErr
deriving DecidableEq, Repr

/-- One transition of the decoder: failure, successful terminator return, or
the continuation at the next instruction byte. -/
inductive StepRes where
  | fail : List Nat → LzoErr → StepRes
  | fin : List Nat → Nat → Nat → StepRes
  | next : DCtx → Nat → Nat → Nat → Nat → List Nat → StepRes
deriving DecidableEq, Repr

/-- The destination buffer carried by a step result. -/
def stepDst : StepRes → List Nat
  | .fail d _ => d
  | .fin d _ _ => d
  | .next _ _ _ _ _ d => d

/-- Lockstep comparison of one decoder step on a short destination buffer
(result `r1`, buffer length `n1`) with the same step on a longer one (`r2`):
either the two results agree on every scalar component - failing with the same
error, finishing with the same positions, or continuing with the same state,
the output offset staying within `n1` - or the short run fails with one of the
two overrun errors. -/
def stepLock (n1 : Nat) (r1 r2 : StepRes) : Prop :=
  (∃ d dd e, r1 = .fail d e ∧ r2 = .fail dd e) ∨
  (∃ d dd oW iC, r1 = .fin d oW iC ∧ r2 = .fin dd oW iC ∧ oW ≤ n1) ∨
  (∃ c t s i o d dd, r1 = .next c t s i o d ∧ r2 = .next c t s i o dd ∧ o ≤ n1) ∨
  (∃ d e, r1 = .fail d e ∧ (e = LzoErr.inputOverrun ∨ e = LzoErr.outputOverrun) ∧
    ((∃ dd ee, r2 = .fail dd ee) ∨
     (∃ c t s i o dd, r2 = .next c t s i o dd ∧ n1 < o)))

/-- The loop of decompress.go `readZeroExtendedLength`, structurally recursive
on the remaining input `inLen - inOff` (one byte is consumed per iteration, so
with that initial fuel the `0` case coincides exactly with the source's
`inOff >= inLen` check). -/
def readZeroExtendedLengthGo (src : List Nat) (inLen base : Nat) :
    Nat → Nat → Except LzoErr (Nat × Nat)
  | 0, _ => .error .inputOverrun
  | fuel + 1, inOff =>
    if inOff < inLen then
      let b := listGet src inOff
      if b ≠ 0 then .ok (base + b, inOff + 1)
      else
        match readZeroExtendedLengthGo src inLen base fuel (inOff + 1) with
        | .ok (l, o) => .ok (255 + l, o)
        | .error e => .error e
    else .error .inputOverrun

/-- decompress.go `readZeroExtendedLength`: zero bytes add 255 each, the final
non-zero byte `b` adds `base + b`.  Returns the length and the new offset. -/
def readZeroExtendedLength (src : List Nat) (inLen base inOff : Nat) :
    Except LzoErr (Nat × Nat) :=
  readZeroExtendedLengthGo src inLen base (inLen - inOff) inOff

/-- decompress.go `readUint16LittleEndian`. -/
def readUint16LE (src : List Nat) (inLen inOff : Nat) : Except LzoErr (Nat × Nat) :=
  if inOff + 2 ≤ inLen then
    .ok (listGet src inOff ||| (listGet src (inOff + 1)) <<< 8, inOff + 2)
  else .error .inputOverrun

/-- decompress.go `stateMatchDone`/`stateMatchNext`/`stateMatchEnd`: copy the
`tsb &&& 3` trailing literals, then read the next instruction byte.  With no
trailing literals the next byte is dispatched in `beginLoop` context
(`stateMatchEnd`), otherwise in `inMatch` context (`stateMatchNext`). -/
def matchDoneStep (src : List Nat) (tsb inOff outOff : Nat) (dst : List Nat) : StepRes :=
  let inLen := src.length
  let tc := tsb &&& 3
  if tc = 0 then
    if inLen ≤ inOff then .fail dst .unexpectedEOF
    else .next .beginLoop (listGet src inOff) tsb (inOff + 1) outOff dst
  else
    if inLen < inOff + tc ∨ dst.length < outOff + tc then .fail dst .inputOverrun
    else
      let dst1 := copyFromSrc dst src outOff inOff tc
      if inLen ≤ inOff + tc then .fail dst1 .unexpectedEOF
      else .next .inMatch (listGet src (inOff + tc)) tsb (inOff + tc + 1) (outOff + tc) dst1

/-- decompress.go `stateMatch`: dispatch on the instruction byte `t` and decode
one match (M1 short, M2, M3, or M4/terminator), then run `matchDoneStep`. -/
def matchStep (src : List Nat) (t inOff outOff : Nat) (dst : List Nat) : StepRes :=
  let inLen := src.length
  if t < 16 then
    -- 2-byte short match (M1): distance = 1 + (t>>2) + (next<<2), length 2
    if inLen ≤ inOff then .fail dst .inputOverrun
    else
      let b := listGet src inOff
      match copyBackRef dst outOff (1 + (t >>> 2) + (b <<< 2)) 2 with
      | .error e => .fail dst e
      | .ok dst1 => matchDoneStep src (t &&& 255) (inOff + 1) (outOff + 2) dst1
  else if 64 ≤ t then
    -- M2: distance = ((t>>2)&7) + (next<<3) + 1, length = (t>>5) - 1 + 2
    if inLen ≤ inOff then .fail dst .inputOverrun
    else
      let b := listGet src inOff
      let ml := (t >>> 5) - 1 + 2
      match copyBackRef dst outOff (((t >>> 2) &&& 7) + (b <<< 3) + 1) ml with
      | .error e => .fail dst e
      | .ok dst1 => matchDoneStep src (t &&& 255) (inOff + 1) (outOff + ml) dst1
  else if 32 ≤ t then
    -- M3: length = (t&31)+2 (zero-extended when t&31 = 0); LE16 v;
    -- distance = (v>>2)+1; trailing source byte = v & 0xFF
    let mlr : Except LzoErr (Nat × Nat) :=
      if t &&& 31 = 0 then readZeroExtendedLength src inLen 31 inOff
      else .ok (t &&& 31, inOff)
    match mlr with
    | .error e => .fail dst e
    | .ok (ml0, off1) =>
      let ml := ml0 + 2
      match readUint16LE src inLen off1 with
      | .error e => .fail dst e
      | .ok (v, off2) =>
        match copyBackRef dst outOff ((v >>> 2) + 1) ml with
        | .error e => .fail dst e
        | .ok dst1 => matchDoneStep src (v &&& 255) off2 (outOff + ml) dst1
  else
    -- M4 or terminator (16 <= t < 32): length = (t&7)+2 (zero-extended when
    -- t&7 = 0); LE16 v; distance base = (v>>2) + ((t&8)<<11); distance base 0
    -- returns success, otherwise distance = base + 0x4000
    let mLenHigh := (t &&& 8) <<< 11
    let mlr : Except LzoErr (Nat × Nat) :=
      if t &&& 7 = 0 then readZeroExtendedLength src inLen 7 inOff
      else .ok (t &&& 7, inOff)
    match mlr with
    | .error e => .fail dst e
    | .ok (ml0, off1) =>
      let ml := ml0 + 2
      match readUint16LE src inLen off1 with
      | .error e => .fail dst e
      | .ok (v, off2) =>
        let d0 := (v >>> 2) + mLenHigh
        if d0 = 0 then .fin dst outOff off2
        else
          match copyBackRef dst outOff (d0 + 0x4000) ml with
          | .error e => .fail dst e
          | .ok dst1 => matchDoneStep src (v &&& 255) off2 (outOff + ml) dst1

/-- One iteration of the decompress.go main loop, from one instruction byte to
the next (or to a final result).  `t` is the instruction byte, `tsb` the
current `trailingSourceByte` value. -/
def decompStep (src : List Nat) (ctx : DCtx) (t tsb inOff outOff : Nat)
    (dst : List Nat) : StepRes :=
  let inLen := src.length
  match ctx with
  | .beginLoop =>
    if 16 ≤ t then matchStep src t inOff outOff dst
    else
      -- literal run of (t or zero-extended) + 3 bytes
      let rlr : Except LzoErr (Nat × Nat) :=
        if t = 0 then readZeroExtendedLength src inLen 15 inOff
        else .ok (t, inOff)
      match rlr with
      | .error e => .fail dst e
      | .ok (rl0, off1) =>
        let run := rl0 + 3
        if inLen < off1 + run ∨ dst.length < outOff + run then .fail dst .inputOverrun
        else
          let dst1 := copyFromSrc dst src outOff off1 run
          if inLen ≤ off1 + run then .fail dst1 .inputOverrun
          else
            .next .firstLiteralRun (listGet src (off1 + run))
              (listGet src (off1 + run) &&& 255) (off1 + run + 1) (outOff + run) dst1
  | .firstLiteralRun =>
    if 16 ≤ t then matchStep src t inOff outOff dst
    else
      -- short match after a literal run: distance (1+0x0800) + (t>>2) + (next<<2),
      -- length 3; the trailing count comes from the current (stale) tsb value
      if inLen ≤ inOff then .fail dst .inputOverrun
      else
        let b := listGet src inOff
        match copyBackRef dst outOff ((1 + 0x0800) + (t >>> 2) + (b <<< 2)) 3 with
        | .error e => .fail dst e
        | .ok dst1 => matchDoneStep src tsb (inOff + 1) (outOff + 3) dst1
  | .inMatch => matchStep src t inOff outOff dst

/-- The decompress.go main loop: iterate `decompStep` until a final result.
Structural recursion on a fuel that `decompressCore` sets to `|src| + 1`:
every `.next` continuation strictly increases the input offset while staying
at most `|src|`, so the fuel-out branch is unreachable. -/
def decompLoop (src : List Nat) : Nat → DCtx → Nat → Nat → Nat → Nat → List Nat → DRes
  | 0, _, _, _, _, _, dst => ⟨dst, 0, 0, some .inputOverrun⟩
  | fuel + 1, ctx, t, tsb, inOff, outOff, dst =>
    match decompStep src ctx t tsb inOff outOff dst with
    | .fail d e => ⟨d, 0, 0, some e⟩
    | .fin d oW iC => ⟨d, oW, iC, none⟩
    | .next ctx1 t1 tsb1 inOff1 outOff1 dst1 =>
      decompLoop src fuel ctx1 t1 tsb1 inOff1 outOff1 dst1

/-- decompress.go `decompressCore`: handle the first byte (initial literal run
when it exceeds 17), then run the main loop. -/
def decompressCore (src dst : List Nat) : DRes :=
  let inLen := src.length
  if inLen = 0 then ⟨dst, 0, 0, some .emptyInput⟩
  else
    let t0 := listGet src 0
    if 17 < t0 then
      let run := t0 - 17
      if inLen < 1 + run ∨ dst.length < run then ⟨dst, 0, 0, some .inputOverrun⟩
      else
        let dst1 := copyFromSrc dst src 0 1 run
        if inLen ≤ 1 + run then ⟨dst1, 0, 0, some .unexpectedEOF⟩
        else decompLoop src (inLen + 1) .firstLiteralRun (listGet src (1 + run)) 0
          (1 + run + 1) run dst1
    else decompLoop src (inLen + 1) .beginLoop t0 0 1 0 dst

/-- options.go `DecompressOptions` (the stream-reader `MaxInputSize` limit is
not used by the in-memory entry points). -/
structure DecompressOptions where
  outLen : Int
  maxInputSize : Int := 0
deriving DecidableEq, Repr

/-- decompress.go `DecompressN`: returns the decoded slice, the number of input
bytes consumed, and the error; the first two are `[]`/`0` on error. -/
def DecompressN (src : List Nat) (opts : Option DecompressOptions) :
    List Nat × Nat × Option LzoErr :=
  match opts with
  | none => ([], 0, some .optionsRequired)
  | some o =>
    if src.length = 0 then ([], 0, some .emptyInput)
    else if o.outLen < 0 then ([], 0, some .optionsRequired)
    else
      let dst := List.replicate o.outLen.toNat 0
      let r := decompressCore src dst
      match r.err with
      | some e => ([], 0, some e)
      | none => (r.dst.take r.outW, r.inC, none)

/-- decompress.go `Decompress`: like `DecompressN` without the consumed count. -/
def Decompress (src : List Nat) (opts : Option DecompressOptions) :
    List Nat × Option LzoErr :=
  match opts with
  | none => ([], some .optionsRequired)
  | some o =>
    if src.length = 0 then ([], some .emptyInput)
    else if o.outLen < 0 then ([], some .optionsRequired)
    else
      let dst := List.replicate o.outLen.toNat 0
      let r := decompressCore src dst
      match r.err with
      | some e => ([], some e)
      | none => (r.dst.take r.outW, none)

/-! ## Format constants (the constants file of the package) -/

def maxOffsetM1 : Nat := 0x0400
def maxOffsetM2 : Nat := 0x0800
def maxOffsetM3 : Nat := 0x4000
def maxOffsetM4 : Nat := 0xbfff
def maxOffsetMX : Nat := maxOffsetM1 + maxOffsetM2
def minLenM2 : Nat := 3
def maxLenM2 : Nat := 8
def maxLenM3 : Nat := 33
def maxLenM4 : Nat := 9
def markerM1 : Nat := 0
def markerM2 : Nat := 64
def markerM3 : Nat := 32
def markerM4 : Nat := 16
def dictBits : Nat := 14
def dictMask : Nat := (1 <<< dictBits) - 1
def dictHigh : Nat := (dictMask >>> 1) + 1

/-- opcode_byte.go `opcodeByte`: keep only the low 8 bits. -/
def opcodeByte (v : Nat) : Nat := v &&& 0xff

/-- Go slice `l[a:b]`. -/
def listSlice (l : List Nat) (a b : Nat) : List Nat := (l.drop a).take (b - a)

/-! ## The fast LZO1X-1 compressor (compress_1x_fast.go) -/

/-- The dictionary key computed at input offset `p` from the four bytes
`b0 = in[p], b1 = in[p+1], b2 = in[p+2], b3 = in[p+3]` (compress_1x_fast.go
lines 17-20): `key := b3; key = key<<6 ^ b2; key = key<<5 ^ b1; key = key<<5 ^ b0`. -/
def fastHashKey (b0 b1 b2 b3 : Nat) : Nat :=
  (((((b3 <<< 6) ^^^ b2) <<< 5) ^^^ b1) <<< 5) ^^^ b0

/-- The dictionary slot probed for a key: `((0x21 * key) >> 5) & dictMask`. -/
def fastDictIndex (key : Nat) : Nat := ((0x21 * key) >>> 5) &&& dictMask

/-- compress_1x_fast.go `findFastCandidate`: `(matchPos, matchOffset)` for a
dictionary slot, or `none`.  The dictionary stores position + 1, `0` is empty
(so the Go `matchPos < 0` test is `stored = 0`); stored positions are always at
most the current position, so the `Nat` subtraction agrees with the Go `int`
arithmetic. -/
def findFastCandidate (dict : Nat → Nat) (inp : List Nat) (inputPos dictIndex : Nat) :
    Option (Nat × Nat) :=
  let stored := dict dictIndex
  if stored = 0 then none
  else
    let matchPos := stored - 1
    if inputPos = matchPos ∨ maxOffsetM4 < inputPos - matchPos then none
    else
      let matchOffset := inputPos - matchPos
      if matchOffset ≤ maxOffsetM2 ∨ listGet inp (matchPos + 3) = listGet inp (inputPos + 3) then
        some (matchPos, matchOffset)
      else none

/-- The `tryMatch && in[matchPos] == in[inputPos] && ...` confirmation of a
candidate (compress_1x_fast.go lines 28-33). -/
def fastHit (inp : List Nat) (inputPos : Nat) (cand : Option (Nat × Nat)) :
    Option (Nat × Nat) :=
  match cand with
  | none => none
  | some (mp, moff) =>
    if (moff ≤ maxOffsetM2 ∨ listGet inp (mp + 3) = listGet inp (inputPos + 3)) ∧
       listGet inp mp = listGet inp inputPos ∧
       listGet inp (mp + 1) = listGet inp (inputPos + 1) ∧
       listGet inp (mp + 2) = listGet inp (inputPos + 2)
    then some (mp, moff) else none

/-- compress_1x_fast.go `appendFastMultiple`: zero bytes while `t > 255`, then
the final byte. -/
def appendFastMultiple (out : List Nat) (t : Nat) : List Nat :=
  if 255 < t then appendFastMultiple (out ++ [0]) (t - 255) else out ++ [opcodeByte t]
termination_by t
decreasing_by omega

/-- `out[len(out)-2] |= opcodeByte x` (trailing-literal packing). -/
def orIntoSecondLast (out : List Nat) (x : Nat) : List Nat :=
  out.set (out.length - 2) (listGet out (out.length - 2) ||| opcodeByte x)

/-- compress_1x_fast.go `appendFastLiteral`: one length header then the bytes. -/
def appendFastLiteral (out lit : List Nat) : List Nat :=
  if lit.length = 0 then out
  else
    let n := lit.length
    let out1 :=
      if out.length = 0 ∧ n ≤ 238 then out ++ [opcodeByte (17 + n)]
      else if n ≤ 3 then orIntoSecondLast out n
      else if n ≤ 18 then out ++ [opcodeByte (n - 3)]
      else appendFastMultiple (out ++ [0]) (n - 18)
    out1 ++ lit

/-- The short match extension (compress_1x_fast.go lines 45-51): the first
offset `i ∈ [3, 8]` with `in[matchPos+i] ≠ in[p0+i]`, or `9`. -/
def fastMismatch (inp : List Nat) (matchPos p0 i : Nat) : Nat :=
  if i < 9 then
    if listGet inp (matchPos + i) ≠ listGet inp (p0 + i) then i
    else fastMismatch inp matchPos p0 (i + 1)
  else 9
termination_by 9 - i
decreasing_by omega

/-- The long match extension (compress_1x_fast.go lines 84-87):
`for inputPos < inputLen && in[m] == in[inputPos] { m++; inputPos++ }`;
returns the final `inputPos`. -/
def fastLongExt (inp : List Nat) (m q : Nat) : Nat :=
  if _h : q < inp.length then
    if listGet inp m = listGet inp q then fastLongExt inp (m + 1) (q + 1) else q
  else q
termination_by inp.length - q
decreasing_by omega

/-- Emit one match (compress_1x_fast.go lines 34-115): flush the pending
literal run, extend the match, append the opcode bytes.  Returns the new `out`
and the input position after the match; `literalStart = inputPos` holds after
the flush, so match lengths are measured from `inputPos`. -/
def fastEmitMatch (inp out : List Nat) (literalStart inputPos matchOffset matchPos : Nat) :
    List Nat × Nat :=
  let out := if inputPos ≠ literalStart
    then appendFastLiteral out (listSlice inp literalStart inputPos) else out
  let i := fastMismatch inp matchPos inputPos 3
  if i < 9 then
    let matchLen := i
    let out1 :=
      if matchOffset ≤ maxOffsetM2 then
        let mo := matchOffset - 1
        out ++ [opcodeByte (((matchLen - 1) <<< 5) ||| ((mo &&& 7) <<< 2)),
                opcodeByte (mo >>> 3)]
      else if matchOffset ≤ maxOffsetM3 then
        let mo := matchOffset - 1
        out ++ [opcodeByte (markerM3 ||| (matchLen - 2)),
                opcodeByte ((mo &&& 63) <<< 2), opcodeByte (mo >>> 6)]
      else
        let mo := matchOffset - 0x4000
        out ++ [opcodeByte (markerM4 ||| ((mo &&& 0x4000) >>> 11) ||| (matchLen - 2)),
                opcodeByte ((mo &&& 63) <<< 2), opcodeByte (mo >>> 6)]
    (out1, inputPos + i)
  else
    let q := fastLongExt inp (matchPos + maxLenM2 + 1) (inputPos + 9)
    let matchLen := q - inputPos
    if matchOffset ≤ maxOffsetM3 then
      let mo := matchOffset - 1
      let out1 :=
        if matchLen ≤ 33 then out ++ [opcodeByte (markerM3 ||| (matchLen - 2))]
        else appendFastMultiple (out ++ [opcodeByte markerM3]) (matchLen - 33)
      (out1 ++ [opcodeByte ((mo &&& 63) <<< 2), opcodeByte (mo >>> 6)], q)
    else
      let mo := matchOffset - 0x4000
      let out1 :=
        if matchLen ≤ maxLenM4 then
          out ++ [opcodeByte (markerM4 ||| ((mo &&& 0x4000) >>> 11) ||| (matchLen - 2))]
        else appendFastMultiple
          (out ++ [opcodeByte (markerM4 ||| ((mo &&& 0x4000) >>> 11))]) (matchLen - maxLenM4)
      (out1 ++ [opcodeByte ((mo &&& 63) <<< 2), opcodeByte (mo >>> 6)], q)

/-- The main parse loop of `compress1xFastCore`.  The termination guards
`inputPos < ip1` are always true (a match advances the position by at least 3,
a literal step by at least 1) and only discharge termination; the loop exit
condition `inputPos >= inputLimit` is the one of the source. -/
def compress1xFastLoop (inp : List Nat) (inputLimit : Nat) (dict : Nat → Nat)
    (out : List Nat) (literalStart inputPos : Nat) : List Nat × Nat :=
  let idx0 := fastDictIndex (fastHashKey (listGet inp inputPos)
    (listGet inp (inputPos + 1)) (listGet inp (inputPos + 2)) (listGet inp (inputPos + 3)))
  match fastHit inp inputPos (findFastCandidate dict inp inputPos idx0) with
  | some (mp, moff) =>
    let dict1 := fun j => if j = idx0 then inputPos + 1 else dict j
    match fastEmitMatch inp out literalStart inputPos moff mp with
    | (out1, ip1) =>
      if _h : ip1 < inputLimit ∧ inputPos < ip1 then
        compress1xFastLoop inp inputLimit dict1 out1 ip1 ip1
      else (out1, ip1)
  | none =>
    let idx1 := (idx0 &&& (dictMask &&& 0x7ff)) ^^^ (dictHigh ||| 0x1f)
    match fastHit inp inputPos (findFastCandidate dict inp inputPos idx1) with
    | some (mp, moff) =>
      let dict1 := fun j => if j = idx1 then inputPos + 1 else dict j
      match fastEmitMatch inp out literalStart inputPos moff mp with
      | (out1, ip1) =>
        if _h : ip1 < inputLimit ∧ inputPos < ip1 then
          compress1xFastLoop inp inputLimit dict1 out1 ip1 ip1
        else (out1, ip1)
    | none =>
      let dict1 := fun j => if j = idx1 then inputPos + 1 else dict j
      if _h : inputPos + 1 + ((inputPos - literalStart) >>> 5) < inputLimit then
        compress1xFastLoop inp inputLimit dict1 out literalStart
          (inputPos + 1 + ((inputPos - literalStart) >>> 5))
      else (out, literalStart)
termination_by inputLimit - inputPos
decreasing_by all_goals omega

/-- compress_1x_fast.go `compress1xFastCore`: run the parse loop from position
4 with an empty dictionary; returns the encoded stream and the literal tail
size. -/
def compress1xFastCore (inp : List Nat) : List Nat × Nat :=
  let inputLen := inp.length
  let inputLimit := inputLen - maxLenM2 - 5
  let r := compress1xFastLoop inp inputLimit (fun _ => 0) [] 0 4
  (r.1, inputLen - r.2)

/-- compress_1x_fast.go `compress1xFast`: inputs of at most `maxLenM2 + 5`
bytes are emitted as one literal run; always append the terminator. -/
def compress1xFast (inp : List Nat) : List Nat :=
  let inLen := inp.length
  let c := if inLen ≤ maxLenM2 + 5 then (([] : List Nat), inLen) else compress1xFastCore inp
  let out1 := if 0 < c.2 then appendFastLiteral c.1 (listSlice inp (inLen - c.2) inLen) else c.1
  out1 ++ [markerM4 ||| 1, 0, 0]

/-! ## The LZO1X-999 high-compression path (sliding_window.go, hc variant)

The hash and chain tables (`uint16` arrays in the source) are modelled as total
functions `Nat → Nat` with pointwise update; every index the source touches is
far below 2^16, so no wrap-around is observable on the source's paths. -/

def hcHashSize : Nat := 0x4000
def hcMaxDist : Nat := 0xbfff
def hcMaxMatchLen : Nat := 0x800
def hcBufferSize : Nat := hcMaxDist + hcMaxMatchLen
def hcBufferGuardSize : Nat := hcBufferSize + hcMaxMatchLen
def hcBestTableSize : Nat := maxLenM3 + 1
def hcNilNode : Nat := 0xffff

/-- `hcSearchDepthByLevel` (index 0 unused). -/
def hcSearchDepthByLevel : List Nat := [0, 8, 12, 16, 24, 48, 64, 80, 96, 112]

/-- sliding_window.go `maxCompressedSize`. -/
def maxCompressedSize (inLen : Nat) : Nat := inLen + inLen / 16 + 64 + 3

/-- Pointwise function update (one store into a modelled array). -/
def fupd (f : Nat → Nat) (k v : Nat) : Nat → Nat := fun i => if i = k then v else f i

/-- `hcMatch3Table`: 3-byte hash chains and per-node caches. -/
structure HcMatch3 where
  head : Nat → Nat
  chainSz : Nat → Nat
  chain : Nat → Nat
  slotKey : Nat → Nat
  bestLen : Nat → Nat

/-- `hcMatch2Table`: position + 1 per 2-byte key, 0 is empty. -/
structure HcMatch2 where
  head : Nat → Nat

/-- `hcCompressorDict`: both hash tables and the ring buffer with guard. -/
structure HcDict where
  match3 : HcMatch3
  match2 : HcMatch2
  buffer : Nat → Nat

/-- `hcState`: the sliding input window of the 999 path. -/
structure HcState where
  src : List Nat
  inPos : Nat
  windSize : Nat
  windB : Nat
  windE : Nat
  cycleCountdown : Nat
  bufPos : Nat
  bufSize : Nat

/-- The zero value of `hcCompressorDict` (what `sync.Pool` creates). -/
def hcZeroDict : HcDict :=
  ⟨⟨fun _ => 0, fun _ => 0, fun _ => 0, fun _ => 0, fun _ => 0⟩, ⟨fun _ => 0⟩, fun _ => 0⟩

/-- sliding_window.go `match3Key`: low 24 bits of the LE32 load at `pos`,
multiplied by 0x1e35a7bd in `uint32` (hence the explicit `% 2^32`), shifted
right by `32 - 14`. -/
def match3Key (buffer : Nat → Nat) (pos : Nat) : Nat :=
  let v := buffer pos ||| ((buffer (pos + 1)) <<< 8) ||| ((buffer (pos + 2)) <<< 16)
  ((v * 0x1e35a7bd) % 4294967296) >>> 18

/-- sliding_window.go `match2Key`. -/
def match2Key (buffer : Nat → Nat) (pos : Nat) : Nat :=
  buffer pos ^^^ ((buffer (pos + 1)) <<< 8)

/-- sliding_window.go `countEqualBytes`: the number of equal bytes starting at
offset `matched`, bounded by `leftLimit` on the left side and the guard size on
the right.  The source reads 8-byte words for speed; byte order and the
trailing-zero count make that exactly this byte-by-byte count. -/
def countEqualBytes (buffer : Nat → Nat) (leftPos rightPos matched leftLimit : Nat) : Nat :=
  if _h : leftPos + matched < leftLimit ∧ rightPos + matched < hcBufferGuardSize ∧
      buffer (leftPos + matched) = buffer (rightPos + matched) then
    countEqualBytes buffer leftPos rightPos (matched + 1) leftLimit
  else matched
termination_by leftLimit - (leftPos + matched)
decreasing_by omega

/-- sliding_window.go `hcState.getByte`: pull one byte (or a zero pad after the
input ends) into the ring at `windE`, mirror into the guard region, advance
`windE` and `windB` with wrap at `hcBufferSize`. -/
def hcGetByte (st : HcState) (buffer : Nat → Nat) : HcState × (Nat → Nat) :=
  let r :=
    if st.inPos < st.src.length then
      let value := listGet st.src st.inPos
      let b1 := fupd buffer st.windE value
      let b2 := if st.windE < hcMaxMatchLen then fupd b1 (hcBufferSize + st.windE) value else b1
      ({ st with inPos := st.inPos + 1 }, b2)
    else
      let st1 := if 0 < st.windSize then { st with windSize := st.windSize - 1 } else st
      let b1 := fupd buffer st.windE 0
      let b2 := if st.windE < hcMaxMatchLen then fupd b1 (hcBufferSize + st.windE) 0 else b1
      (st1, b2)
  let st2 := r.1
  let windE1 := if st2.windE + 1 = hcBufferSize then 0 else st2.windE + 1
  let windB1 := if st2.windB + 1 = hcBufferSize then 0 else st2.windB + 1
  ({ st2 with windE := windE1, windB := windB1 }, r.2)

/-- sliding_window.go `hcState.posToOffset`. -/
def hcPosToOffset (st : HcState) (pos : Nat) : Nat :=
  if pos < st.windB then st.windB - pos else hcBufferSize - (pos - st.windB)

/-- sliding_window.go `hcMatch3Table.remove`. -/
def hcMatch3Remove (m : HcMatch3) (pos : Nat) : HcMatch3 :=
  let key := m.slotKey pos
  { m with chainSz := fupd m.chainSz key (m.chainSz key - 1) }

/-- sliding_window.go `hcMatch3Table.advance`: link the current position into
its chain and return the previous head together with the clamped chain count. -/
def hcMatch3Advance (m : HcMatch3) (windB : Nat) (buffer : Nat → Nat)
    (searchDepth : Nat) : HcMatch3 × Nat × Nat :=
  let key := match3Key buffer windB
  let count0 := m.chainSz key
  let head := m.head key
  let m1 := { m with chain := fupd m.chain windB head,
                     chainSz := fupd m.chainSz key (count0 + 1) }
  let count1 := if hcMaxMatchLen < count0 then hcMaxMatchLen else count0
  let count2 := if 0 < searchDepth ∧ searchDepth < count1 then searchDepth else count1
  let m2 := { m1 with slotKey := fupd m1.slotKey windB key,
                      head := fupd m1.head key windB }
  (m2, head, count2)

/-- sliding_window.go `hcMatch3Table.skipAdvance`. -/
def hcMatch3SkipAdvance (m : HcMatch3) (windB : Nat) (buffer : Nat → Nat) : HcMatch3 :=
  let key := match3Key buffer windB
  let head := m.head key
  { m with chain := fupd m.chain windB head,
           slotKey := fupd m.slotKey windB key,
           head := fupd m.head key windB,
           bestLen := fupd m.bestLen windB (hcMaxMatchLen + 1),
           chainSz := fupd m.chainSz key (m.chainSz key + 1) }

/-- sliding_window.go `hcMatch2Table.add`. -/
def hcMatch2Add (m2 : HcMatch2) (pos : Nat) (buffer : Nat → Nat) : HcMatch2 :=
  ⟨fupd m2.head (match2Key buffer pos) (pos + 1)⟩

/-- sliding_window.go `hcMatch2Table.search`: the cheap 2-byte seed candidate.
Returns the updated `(matchPos, matchLen, bestPosByLen)`. -/
def hcMatch2Search (m2 : HcMatch2) (windB : Nat) (matchPos matchLen : Nat)
    (bestPosByLen : Nat → Nat) (buffer : Nat → Nat) : Nat × Nat × (Nat → Nat) :=
  let head := m2.head (match2Key buffer windB)
  if head = 0 then (matchPos, matchLen, bestPosByLen)
  else
    let pos := head - 1
    let best1 := if bestPosByLen 2 = 0 then fupd bestPosByLen 2 (pos + 1) else bestPosByLen
    if matchLen < 2 then (pos, 2, best1) else (matchPos, matchLen, best1)

/-- sliding_window.go `hcResetNextInputEntry`. -/
def hcResetNextInputEntry (m3 : HcMatch3) (st : HcState) : HcMatch3 × HcState :=
  if st.cycleCountdown = 0 then (hcMatch3Remove m3 st.windE, st)
  else (m3, { st with cycleCountdown := st.cycleCountdown - 1 })

/-- The chain walk of `hcCompressorDict.advance` (sliding_window.go lines
704-754), one recursive call per loop iteration.  A `node < 0` test of the
source is vacuous over `Nat` (nodes come from `uint16` reads). -/
def hcChainWalk (chain bestLenT buffer : Nat → Nat) (scanPos scanLimit windSize : Nat) :
    Nat → Nat → Nat → Nat → Nat → Nat → (Nat → Nat) → Nat × Nat × (Nat → Nat)
  | 0, _node, matchLen, matchPos, _cb, _pb, bestPos => (matchLen, matchPos, bestPos)
  | rem + 1, node, matchLen, matchPos, currentBest, probeByte, bestPos =>
    if hcBufferSize ≤ node ∨ node = hcNilNode then (matchLen, matchPos, bestPos)
    else if windSize ≤ currentBest then (matchLen, matchPos, bestPos)
    else if buffer (node + currentBest - 1) ≠ probeByte ∨
            buffer (node + currentBest) ≠ buffer (scanPos + currentBest) ∨
            buffer node ≠ buffer scanPos ∨
            buffer (node + 1) ≠ buffer (scanPos + 1) then
      let nx := chain node
      if nx = hcNilNode then (matchLen, matchPos, bestPos)
      else hcChainWalk chain bestLenT buffer scanPos scanLimit windSize
        rem nx matchLen matchPos currentBest probeByte bestPos
    else
      let matched := countEqualBytes buffer scanPos node 2 scanLimit
      if 2 ≤ matched then
        let bestPos1 :=
          if matched < hcBestTableSize ∧ bestPos matched = 0 then fupd bestPos matched (node + 1)
          else bestPos
        if matchLen < matched then
          if matched = windSize ∨ bestLenT node < matched then (matched, node, bestPos1)
          else
            let probeByte1 := buffer (scanPos + matched - 1)
            let nx := chain node
            if nx = hcNilNode then (matched, node, bestPos1)
            else hcChainWalk chain bestLenT buffer scanPos scanLimit windSize
              rem nx matched node matched probeByte1 bestPos1
        else
          let nx := chain node
          if nx = hcNilNode then (matchLen, matchPos, bestPos1)
          else hcChainWalk chain bestLenT buffer scanPos scanLimit windSize
            rem nx matchLen matchPos currentBest probeByte bestPos1
      else
        let nx := chain node
        if nx = hcNilNode then (matchLen, matchPos, bestPos)
        else hcChainWalk chain bestLenT buffer scanPos scanLimit windSize
          rem nx matchLen matchPos currentBest probeByte bestPos

/-- The skip loop at the top of `hcCompressorDict.advance` (insert the skipped
positions of an emitted match into both hash tables without searching). -/
def hcAdvanceSkipLoop (d : HcDict) (st : HcState) : Nat → HcDict × HcState
  | 0 => (d, st)
  | n + 1 =>
    let r1 := hcResetNextInputEntry d.match3 st
    let m3b := hcMatch3SkipAdvance r1.1 r1.2.windB d.buffer
    let r2 := hcGetByte r1.2 d.buffer
    hcAdvanceSkipLoop { d with match3 := m3b, buffer := r2.2 } r2.1 n

/-- sliding_window.go `hcCompressorDict.advance`: one parser step.  Returns the
updated dictionary and state, the refreshed `bestOffsetByLen` table, and the
best `(matchOff, matchLen)` found at the current position. -/
def hcAdvance (d0 : HcDict) (st0 : HcState) (prevLen : Nat) (bestOffsetByLen : Nat → Nat)
    (skip : Bool) (searchDepth : Nat) :
    HcDict × HcState × (Nat → Nat) × Nat × Nat :=
  let ds := if skip ∧ 1 < prevLen then hcAdvanceSkipLoop d0 st0 (prevLen - 1) else (d0, st0)
  let d := ds.1
  let st := ds.2
  let a := hcMatch3Advance d.match3 st.windB d.buffer searchDepth
  let d := { d with match3 := a.1 }
  let head := a.2.1
  let count := if head = hcNilNode then 0 else a.2.2
  -- matchLen starts at 1, matchOff and matchPos at 0
  let r :=
    if st.windSize ≤ 1 then
      -- matchLen >= windSize: no search; mark the slot and maybe stop
      let stop : Bool := st.windSize == 0
      let d := { d with match3 :=
        { d.match3 with bestLen := fupd d.match3.bestLen st.windB (hcMaxMatchLen + 1) } }
      (d, bestOffsetByLen, 0, 1, stop)
    else
      let w :=
        if 3 ≤ st.windSize then
          let s2 := hcMatch2Search d.match2 st.windB 0 1 (fun _ => 0) d.buffer
          let scanPos := st.windB
          let scanLimit := scanPos + st.windSize
          let currentBest := s2.2.1
          let probeByte := d.buffer (scanPos + currentBest - 1)
          hcChainWalk d.match3.chain d.match3.bestLen d.buffer scanPos scanLimit st.windSize
            count head s2.2.1 s2.1 currentBest probeByte s2.2.2
        else (1, 0, fun _ => 0)
      let matchLen := w.1
      let matchPos := w.2.1
      let bestPosByLen := w.2.2
      let matchOff := if 1 < matchLen then hcPosToOffset st matchPos else 0
      let d := { d with match3 :=
        { d.match3 with bestLen := fupd d.match3.bestLen st.windB matchLen } }
      let bo := (List.range (hcBestTableSize - 2)).foldl (fun b j =>
        let i := j + 2
        if 0 < bestPosByLen i then fupd b i (hcPosToOffset st (bestPosByLen i - 1))
        else fupd b i 0) bestOffsetByLen
      (d, bo, matchOff, matchLen, (false : Bool))
  let d := r.1
  let bo := r.2.1
  let matchOff := r.2.2.1
  let matchLen := r.2.2.2.1
  let stop := r.2.2.2.2
  let rn := hcResetNextInputEntry d.match3 st
  let d := { d with match3 := rn.1 }
  let st := rn.2
  let d := { d with match2 := hcMatch2Add d.match2 st.windB d.buffer }
  let g := hcGetByte st d.buffer
  let st := g.1
  let d := { d with buffer := g.2 }
  let st :=
    if stop then { st with bufSize := 0 }
    else { st with bufSize := st.windSize + 1 }
  let matchLen := if stop then 0 else matchLen
  let st := { st with bufPos := st.inPos - st.bufSize }
  (d, st, bo, matchOff, matchLen)

/-- sliding_window.go `hcCompressorDict.init` plus the state initialization of
`compress999NoAlloc`: prime the window with up to `hcMaxMatchLen` input bytes,
zero-pad so 3-byte hashing is safe, clear both hash indexes. -/
def hcDictInit (d : HcDict) (src : List Nat) : HcDict × HcState :=
  let windSize := min src.length hcMaxMatchLen
  let buf1 : Nat → Nat := fun i => if i < windSize then listGet src i else d.buffer i
  let buf2 : Nat → Nat :=
    if windSize < 3 then fun i => if windSize ≤ i ∧ i < windSize + (3 - windSize) then 0 else buf1 i
    else buf1
  let d1 : HcDict :=
    { match3 := { d.match3 with chainSz := fun _ => 0 },
      match2 := ⟨fun _ => 0⟩,
      buffer := buf2 }
  (d1, { src := src, inPos := windSize, windSize := windSize, windB := 0, windE := windSize,
         cycleCountdown := hcMaxDist, bufPos := 0, bufSize := 0 })

/-- sliding_window.go `writeByte`. -/
def writeByteHc (out : List Nat) (outPos : Nat) (b : Nat) : Except LzoErr (List Nat × Nat) :=
  if out.length ≤ outPos then .error .compressInternal
  else .ok (out.set outPos b, outPos + 1)

/-- sliding_window.go `writeSlice`. -/
def writeSliceHc (out : List Nat) (outPos : Nat) (data : List Nat) :
    Except LzoErr (List Nat × Nat) :=
  if out.length - outPos < data.length then .error .compressInternal
  else .ok (copyFromSrc out data outPos 0 data.length, outPos + data.length)

/-- sliding_window.go `writeZeroByteLength`. -/
def writeZeroByteLengthHc (out : List Nat) (outPos length : Nat) :
    Except LzoErr (List Nat × Nat) :=
  if 255 < length then
    match writeByteHc out outPos 0 with
    | .error e => .error e
    | .ok r => writeZeroByteLengthHc r.1 r.2 (length - 255)
  else writeByteHc out outPos (opcodeByte length)
termination_by length
decreasing_by omega

/-- sliding_window.go `encodeLiteralRun`. -/
def encodeLiteralRun (out : List Nat) (outPos : Nat) (inp : List Nat)
    (literalStart literalLen : Nat) : Except LzoErr (List Nat × Nat) :=
  if literalLen = 0 then .ok (out, outPos)
  else
    let hdr : Except LzoErr (List Nat × Nat) :=
      if outPos = 0 ∧ literalLen ≤ 238 then
        writeByteHc out outPos (opcodeByte (17 + literalLen))
      else if literalLen ≤ 3 then
        if outPos < 2 then .error .compressInternal
        else .ok (out.set (outPos - 2) (listGet out (outPos - 2) ||| opcodeByte literalLen), outPos)
      else if literalLen ≤ 18 then writeByteHc out outPos (opcodeByte (literalLen - 3))
      else
        match writeByteHc out outPos 0 with
        | .error e => .error e
        | .ok r => writeZeroByteLengthHc r.1 r.2 (literalLen - 18)
    match hdr with
    | .error e => .error e
    | .ok r => writeSliceHc r.1 r.2 (listSlice inp literalStart (literalStart + literalLen))

/-- sliding_window.go `encodeLookbackMatch`: one back-reference token, by the
source's case order (M1, M2, the M1 special form after 4+ literals, M3, M4). -/
def encodeLookbackMatch (out : List Nat) (outPos matchLen matchOff lastLiteralLen : Nat) :
    Except LzoErr (List Nat × Nat) :=
  if matchLen = 2 then
    let mo := matchOff - 1
    match writeByteHc out outPos (opcodeByte (markerM1 ||| ((mo &&& 0x3) <<< 2))) with
    | .error e => .error e
    | .ok r => writeByteHc r.1 r.2 (opcodeByte (mo >>> 2))
  else if matchLen ≤ maxLenM2 ∧ matchOff ≤ maxOffsetM2 then
    let mo := matchOff - 1
    match writeByteHc out outPos (opcodeByte (((matchLen - 1) <<< 5) ||| ((mo &&& 0x7) <<< 2))) with
    | .error e => .error e
    | .ok r => writeByteHc r.1 r.2 (opcodeByte (mo >>> 3))
  else if matchLen = minLenM2 ∧ matchOff ≤ maxOffsetMX ∧ 4 ≤ lastLiteralLen then
    let mo := matchOff - (1 + maxOffsetM2)
    match writeByteHc out outPos (opcodeByte (markerM1 ||| ((mo &&& 0x3) <<< 2))) with
    | .error e => .error e
    | .ok r => writeByteHc r.1 r.2 (opcodeByte (mo >>> 2))
  else if matchOff ≤ maxOffsetM3 then
    let mo := matchOff - 1
    let hdr : Except LzoErr (List Nat × Nat) :=
      if matchLen ≤ maxLenM3 then
        writeByteHc out outPos (opcodeByte (markerM3 ||| (matchLen - 2)))
      else
        match writeByteHc out outPos (opcodeByte markerM3) with
        | .error e => .error e
        | .ok r => writeZeroByteLengthHc r.1 r.2 (matchLen - maxLenM3)
    match hdr with
    | .error e => .error e
    | .ok r =>
      match writeByteHc r.1 r.2 (opcodeByte ((mo &&& 0x3f) <<< 2)) with
      | .error e => .error e
      | .ok r2 => writeByteHc r2.1 r2.2 (opcodeByte (mo >>> 6))
  else if matchOff ≤ maxOffsetM4 then
    let mo := matchOff - 0x4000
    let hd := (mo &&& 0x4000) >>> 11
    let hdr : Except LzoErr (List Nat × Nat) :=
      if matchLen ≤ maxLenM4 then
        writeByteHc out outPos (opcodeByte (markerM4 ||| hd ||| (matchLen - 2)))
      else
        match writeByteHc out outPos (opcodeByte (markerM4 ||| hd)) with
        | .error e => .error e
        | .ok r => writeZeroByteLengthHc r.1 r.2 (matchLen - maxLenM4)
    match hdr with
    | .error e => .error e
    | .ok r =>
      match writeByteHc r.1 r.2 (opcodeByte ((mo &&& 0x3f) <<< 2)) with
      | .error e => .error e
      | .ok r2 => writeByteHc r2.1 r2.2 (opcodeByte (mo >>> 6))
  else .error .compressInternal

/-- sliding_window.go `bestOffsetAt` (the table has `hcBestTableSize` entries). -/
def bestOffsetAt (b : Nat → Nat) (idx : Nat) : Nat :=
  if idx < hcBestTableSize then b idx else 0

/-- sliding_window.go `findBetterMatch`: the three opcode-cost shortenings, in
source order (each accepted shortening returns immediately). -/
def findBetterMatch (b : Nat → Nat) (matchLen matchOff : Nat) : Nat × Nat :=
  if matchLen ≤ minLenM2 ∨ matchOff ≤ maxOffsetM2 then (matchLen, matchOff)
  else if maxOffsetM2 < matchOff ∧ minLenM2 + 1 ≤ matchLen ∧ matchLen ≤ maxLenM2 + 1 ∧
      bestOffsetAt b (matchLen - 1) ≠ 0 ∧ bestOffsetAt b (matchLen - 1) ≤ maxOffsetM2 then
    (matchLen - 1, bestOffsetAt b (matchLen - 1))
  else if maxOffsetM3 < matchOff ∧ maxLenM4 + 1 ≤ matchLen ∧ matchLen ≤ maxLenM2 + 2 ∧
      bestOffsetAt b (matchLen - 2) ≠ 0 ∧ bestOffsetAt b matchLen ≤ maxOffsetM2 then
    (matchLen - 2, bestOffsetAt b (matchLen - 2))
  else if maxOffsetM3 < matchOff ∧ maxLenM4 + 1 ≤ matchLen ∧ matchLen ≤ maxLenM3 + 1 ∧
      bestOffsetAt b (matchLen - 1) ≠ 0 ∧ bestOffsetAt b (matchLen - 2) ≤ maxOffsetM3 then
    (matchLen - 1, bestOffsetAt b (matchLen - 1))
  else (matchLen, matchOff)

/-- The main parse loop of `compress999NoAlloc` (sliding_window.go lines
534-572).  The fuel decreases once per iteration; every iteration consumes one
input byte or one unit of remaining lookahead, so any fuel of at least
`|src| + hcMaxMatchLen + 2` is never exhausted (the fuel-out branch is a
modelling artifact). -/
def hc999Loop (inp : List Nat) (searchDepth : Nat) :
    Nat → List Nat → HcDict → HcState → Nat → Nat → Nat → (Nat → Nat) → Nat → Nat →
    Except LzoErr (List Nat × Nat × Nat × Nat)
  | 0, _, _, _, _, _, _, _, _, _ => .error .compressInternal
  | _fuel + 1, out, d, st, outPos, literalLen, literalStart, bo, matchOff, matchLen =>
    if st.bufSize = 0 then .ok (out, outPos, literalStart, literalLen)
    else
      let literalStart := if literalLen = 0 then st.bufPos else literalStart
      let matchLen :=
        if matchLen < 2 ∨
           (matchLen = 2 ∧ (maxOffsetM1 < matchOff ∨ literalLen = 0 ∨ 4 ≤ literalLen)) ∨
           (matchLen = 2 ∧ outPos = 0) ∨
           (outPos = 0 ∧ literalLen = 0) then 0
        else if matchLen = minLenM2 ∧ maxOffsetMX < matchOff ∧ 4 ≤ literalLen then 0
        else matchLen
      if matchLen = 0 then
        let a := hcAdvance d st 0 bo false searchDepth
        hc999Loop inp searchDepth _fuel out a.1 a.2.1 outPos (literalLen + 1) literalStart
          a.2.2.1 a.2.2.2.1 a.2.2.2.2
      else
        let fb := findBetterMatch bo matchLen matchOff
        match encodeLiteralRun out outPos inp literalStart literalLen with
        | .error e => .error e
        | .ok r1 =>
          match encodeLookbackMatch r1.1 r1.2 fb.1 fb.2 literalLen with
          | .error e => .error e
          | .ok r2 =>
            let a := hcAdvance d st fb.1 bo true searchDepth
            hc999Loop inp searchDepth _fuel r2.1 a.1 a.2.1 r2.2 0 literalStart
              a.2.2.1 a.2.2.2.1 a.2.2.2.2

/-- sliding_window.go `compress999NoAlloc`: initialize, prime the parser, run
the loop, flush the trailing literals, append the terminator.  Returns the
written buffer and the output length. -/
def compress999NoAlloc (inp out : List Nat) (d : HcDict) (level : Nat) :
    Except LzoErr (List Nat × Nat) :=
  if out.length < 3 then .error .compressInternal
  else
    let ds := hcDictInit d inp
    let searchDepth := hcSearchDepthByLevel.getD level 0
    let literalStart0 := ds.2.inPos
    let a := hcAdvance ds.1 ds.2 0 (fun _ => 0) false searchDepth
    match hc999Loop inp searchDepth (inp.length + hcMaxMatchLen + 2) out a.1 a.2.1 0 0
        literalStart0 a.2.2.1 a.2.2.2.1 a.2.2.2.2 with
    | .error e => .error e
    | .ok r =>
      match encodeLiteralRun r.1 r.2.1 inp r.2.2.1 r.2.2.2 with
      | .error e => .error e
      | .ok r1 =>
        match writeByteHc r1.1 r1.2 (markerM4 ||| 1) with
        | .error e => .error e
        | .ok r2 =>
          match writeByteHc r2.1 r2.2 0 with
          | .error e => .error e
          | .ok r3 =>
            match writeByteHc r3.1 r3.2 0 with
            | .error e => .error e
            | .ok r4 => .ok (r4.1, r4.2)

/-- sliding_window.go `compress999Level`: clamp the level into `[1, 9]`, run
`compress999NoAlloc` on a fresh dictionary into a `maxCompressedSize` buffer,
and return a tight copy.  The level is a Go `int`, hence `Int` here. -/
def compress999Level (inp : List Nat) (level : Int) : List Nat × Option LzoErr :=
  let level1 : Int := if level < 1 then 1 else level
  let level2 : Int := if 9 < level1 then 9 else level1
  let temp := List.replicate (maxCompressedSize inp.length) 0
  match compress999NoAlloc inp temp hcZeroDict level2.toNat with
  | .error e => ([], some e)
  | .ok r => (r.1.take r.2, none)

/-- options.go `CompressOptions`. -/
structure CompressOptions where
  level : Int
deriving DecidableEq, Repr

/-- `DefaultCompressOptions` (level 1). -/
def defaultCompressOptions : CompressOptions := ⟨1⟩

/-- The top-level `Compress`: levels at most 1 use the fast LZO1X-1 path, the
rest the LZO1X-999 path at the clamped level. -/
def Compress (src : List Nat) (opts : Option CompressOptions) : List Nat × Option LzoErr :=
  let o := opts.getD defaultCompressOptions
  let level := max o.level 0
  if level ≤ 1 then (compress1xFast src, none)
  else compress999Level src (min level 9)

/-! # Theorems -/

/-! ## Lemmas about the buffer primitives -/

theorem listGet_set (l : List Nat) (i j a : Nat) :
    listGet (l.set i a) j = if i = j ∧ j < l.length then a else listGet l j := by
  unfold listGet
  rw [List.getD_eq_getElem?_getD, List.getD_eq_getElem?_getD, List.getElem?_set]
  by_cases h1 : i = j
  · subst h1
    by_cases h2 : i < l.length
    · simp [h2]
    · rw [if_pos rfl, if_neg h2, if_neg (by tauto), List.getElem?_eq_none (by omega)]
  · simp [h1]

theorem copyWithin_zero (dst : List Nat) (a b : Nat) : copyWithin dst a b 0 = dst := rfl

theorem copyWithin_succ (dst : List Nat) (a b n : Nat) :
    copyWithin dst a b (n + 1) = (copyWithin dst a b n).set (a + n) (listGet dst (b + n)) := by
  unfold copyWithin
  rw [List.range_succ, List.foldl_append]
  rfl

theorem copyWithin_length (dst : List Nat) (a b n : Nat) :
    (copyWithin dst a b n).length = dst.length := by
  induction n with
  | zero => rfl
  | succ n ih => rw [copyWithin_succ, List.length_set, ih]

theorem copyFromSrc_zero (dst src : List Nat) (a b : Nat) : copyFromSrc dst src a b 0 = dst := rfl

theorem copyFromSrc_succ (dst src : List Nat) (a b n : Nat) :
    copyFromSrc dst src a b (n + 1) =
      (copyFromSrc dst src a b n).set (a + n) (listGet src (b + n)) := by
  unfold copyFromSrc
  rw [List.range_succ, List.foldl_append]
  rfl

theorem copyFromSrc_length (dst src : List Nat) (a b n : Nat) :
    (copyFromSrc dst src a b n).length = dst.length := by
  induction n with
  | zero => rfl
  | succ n ih => rw [copyFromSrc_succ, List.length_set, ih]

theorem oracleCopy_zero (dst : List Nat) (p d : Nat) : oracleCopy dst p d 0 = dst := rfl

theorem oracleCopy_succ (dst : List Nat) (p d n : Nat) :
    oracleCopy dst p d (n + 1) =
      (oracleCopy dst p d n).set (p + n) (listGet (oracleCopy dst p d n) (p - d + n)) := by
  unfold oracleCopy
  rw [List.range_succ, List.foldl_append]
  rfl

theorem oracleCopy_length (dst : List Nat) (p d n : Nat) :
    (oracleCopy dst p d n).length = dst.length := by
  induction n with
  | zero => rfl
  | succ n ih => rw [oracleCopy_succ, List.length_set, ih]

theorem list_eq_of_getD (l1 l2 : List Nat) (hl : l1.length = l2.length)
    (h : ∀ i, listGet l1 i = listGet l2 i) : l1 = l2 := by
  apply List.ext_getElem hl
  intro n h1 h2
  have := h n
  rwa [listGet, listGet, List.getD_eq_getElem _ _ h1, List.getD_eq_getElem _ _ h2] at this

theorem copyWithin_getD (dst : List Nat) (a b n : Nat) (hn : a + n ≤ dst.length) (i : Nat) :
    listGet (copyWithin dst a b n) i =
      if a ≤ i ∧ i < a + n then listGet dst (b + (i - a)) else listGet dst i := by
  induction n with
  | zero => rw [copyWithin_zero, if_neg (by omega)]
  | succ n ih =>
    rw [copyWithin_succ, listGet_set, copyWithin_length]
    by_cases hi : a + n = i
    · have hlt : i < dst.length := by omega
      rw [if_pos ⟨hi, hlt⟩, if_pos (by omega)]
      congr 1
      omega
    · rw [if_neg (by tauto)]
      rw [ih (by omega)]
      by_cases h2 : a ≤ i ∧ i < a + n
      · rw [if_pos h2, if_pos (by omega)]
      · rw [if_neg h2, if_neg (by omega)]

/-- Closed form of the byte-by-byte oracle under the preconditions of
BackRefCopy: position `p + j` receives the source byte at `p - d + (j % d)`. -/
theorem oracleCopy_getD (dst : List Nat) (p d : Nat) (hd : 1 ≤ d) (hdp : d ≤ p) :
    ∀ n, p + n ≤ dst.length → ∀ i,
    listGet (oracleCopy dst p d n) i =
      if p ≤ i ∧ i < p + n then listGet dst (p - d + ((i - p) % d)) else listGet dst i := by
  intro n
  induction n with
  | zero => intro _ i; rw [oracleCopy_zero, if_neg (by omega)]
  | succ n ih =>
    intro hn i
    rw [oracleCopy_succ, listGet_set, oracleCopy_length]
    by_cases hi : p + n = i
    · rw [if_pos ⟨hi, by omega⟩, if_pos (show p ≤ i ∧ i < p + (n + 1) by omega)]
      rw [ih (by omega) (p - d + n)]
      by_cases hnd : n < d
      · rw [if_neg (show ¬(p ≤ p - d + n ∧ p - d + n < p + n) by omega)]
        congr 1
        rw [Nat.mod_eq_of_lt (show i - p < d by omega)]
        omega
      · rw [if_pos (show p ≤ p - d + n ∧ p - d + n < p + n by omega)]
        congr 2
        have h1 : p - d + n - p = n - d := by omega
        have h2 : i - p = n := by omega
        rw [h1, h2]
        conv_rhs => rw [Nat.mod_eq_sub_mod (show n ≥ d by omega)]
    · rw [if_neg (by tauto)]
      rw [ih (by omega) i]
      by_cases h2 : p ≤ i ∧ i < p + n
      · rw [if_pos h2, if_pos (by omega)]
      · rw [if_neg h2, if_neg (by omega)]

theorem backRefLoop_length (p l : Nat) :
    ∀ (fuel : Nat) (s : List Nat) (c : Nat), (backRefLoop p l fuel s c).length = s.length := by
  intro fuel
  induction fuel with
  | zero => intro s c; rfl
  | succ fuel ih =>
    intro s c
    rw [backRefLoop]
    by_cases hcl : c < l
    · rw [if_pos hcl]
      by_cases hn0 : min (l - c) c = 0
      · rw [if_pos hn0]
      · rw [if_neg hn0, ih, copyWithin_length]
    · rw [if_neg hcl]

theorem backRefLoop_done (p l : Nat) : ∀ (fuel : Nat) (s : List Nat),
    backRefLoop p l fuel s l = s := by
  intro fuel s
  cases fuel with
  | zero => rfl
  | succ fuel => rw [backRefLoop, if_neg (lt_irrefl l)]

/-- The invariant of the doubling loop: if the first `c` copied bytes already
agree with the oracle closed form and `d` divides `c`, the loop completes the
copy to the full closed form. -/
theorem backRefLoop_spec (dst : List Nat) (p d l : Nat) (hd : 1 ≤ d) (hdp : d ≤ p)
    (hl : p + l ≤ dst.length) :
    ∀ fuel c s, l ≤ c + fuel → d ≤ c → c ≤ l → d ∣ c → s.length = dst.length →
    (∀ i, listGet s i =
      if p ≤ i ∧ i < p + c then listGet dst (p - d + ((i - p) % d)) else listGet dst i) →
    ∀ i, listGet (backRefLoop p l fuel s c) i =
      if p ≤ i ∧ i < p + l then listGet dst (p - d + ((i - p) % d)) else listGet dst i := by
  intro fuel
  induction fuel with
  | zero =>
    intro c s hm hc1 hc2 hdvd hslen hs i
    have h0 : backRefLoop p l 0 s c = s := rfl
    rw [h0, hs i]
    have hcl2 : c = l := by omega
    rw [hcl2]
  | succ m ihm =>
    intro c s hm hc1 hc2 hdvd hslen hs i
    by_cases hcl : c < l
    · rw [backRefLoop, if_pos hcl]
      have hn0 : ¬ (min (l - c) c = 0) := by omega
      rw [if_neg hn0]
      -- the copied region grows by `min (l - c) c` bytes in the closed form
      have hstep : ∀ n, 1 ≤ n → n ≤ c → c + n ≤ l →
          ∀ j, listGet (copyWithin s (p + c) p n) j =
          if p ≤ j ∧ j < p + (c + n) then listGet dst (p - d + ((j - p) % d))
          else listGet dst j := by
        intro n hn1 hnc hncl j
        rw [copyWithin_getD s (p + c) p n (by omega) j]
        by_cases hj : p + c ≤ j ∧ j < p + c + n
        · rw [if_pos hj, if_pos (by omega)]
          rw [hs (p + (j - (p + c)))]
          rw [if_pos (by omega)]
          congr 2
          obtain ⟨k, rfl⟩ := hdvd
          have h1 : p + (j - (p + d * k)) - p = j - p - d * k := by omega
          have h2 : j - p = d * k + (j - p - d * k) := by omega
          rw [h1]
          conv_rhs => rw [h2]
          rw [Nat.mul_add_mod]
        · rw [if_neg hj]
          rw [hs j]
          by_cases hj2 : p ≤ j ∧ j < p + c
          · rw [if_pos hj2, if_pos (by omega)]
          · rw [if_neg hj2, if_neg (by omega)]
      by_cases hcn : c + min (l - c) c = l
      · -- the final (possibly partial) chunk: the loop stops at the next check
        rw [hcn, backRefLoop_done]
        rw [hstep (min (l - c) c) (by omega) (by omega) (by omega) i, hcn]
      · -- a full doubling chunk: the chunk size is exactly c, preserving d ∣ c
        have hnc : min (l - c) c = c := by omega
        exact ihm (c + min (l - c) c) (copyWithin s (p + c) p (min (l - c) c))
          (by omega) (by omega) (by omega)
          (by rw [hnc]; exact Dvd.dvd.add hdvd hdvd)
          (by rw [copyWithin_length]; exact hslen)
          (hstep (min (l - c) c) (by omega) (by omega) (by omega)) i
    · rw [backRefLoop, if_neg hcl]
      rw [hs i]
      have hcl2 : c = l := by omega
      rw [hcl2]

theorem copyWithin_eq_oracle_of_le (dst : List Nat) (p d l : Nat)
    (h1 : 1 ≤ d) (h2 : d ≤ p) (h3 : p + l ≤ dst.length) (hld : l ≤ d) :
    copyWithin dst p (p - d) l = oracleCopy dst p d l := by
  apply list_eq_of_getD _ _ (by rw [copyWithin_length, oracleCopy_length])
  intro i
  rw [copyWithin_getD dst p (p - d) l (by omega) i, oracleCopy_getD dst p d h1 h2 l h3 i]
  by_cases hi : p ≤ i ∧ i < p + l
  · rw [if_pos hi, if_pos hi]
    congr 1
    rw [Nat.mod_eq_of_lt (by omega)]
  · rw [if_neg hi, if_neg hi]

/-- C4: under the preconditions `dist ≥ 1`, `out_pos − dist ≥ 0`,
`out_pos + length ≤ len(dst)`, both implementations of `copyBackRef` (the
chunk-doubling one of copy.go and the byte-by-byte one) produce exactly the
result of the oracle that copies `dst[outPos+i] = dst[outPos-dist+i]` for
`i = 0 .. length-1` in increasing order; in particular they agree. -/
theorem C4_copyBackRef_oracle (dst : List Nat) (p d l : Nat)
    (h1 : 1 ≤ d) (h2 : d ≤ p) (h3 : p + l ≤ dst.length) :
    copyBackRef dst p d l = .ok (oracleCopy dst p d l) ∧
    copyBackRefSeq dst p d l = .ok (oracleCopy dst p d l) := by
  constructor
  · unfold copyBackRef
    rw [if_neg (show ¬ p < d by omega), if_neg (show ¬ dst.length < p + l by omega)]
    by_cases hld : l ≤ d
    · rw [if_pos hld, copyWithin_eq_oracle_of_le dst p d l h1 h2 h3 hld]
    · rw [if_neg hld]
      congr 1
      apply list_eq_of_getD
      · rw [backRefLoop_length, copyWithin_length, oracleCopy_length]
      · intro i
        rw [oracleCopy_getD dst p d h1 h2 l h3 i]
        apply backRefLoop_spec dst p d l h1 h2 h3 l d (copyWithin dst p (p - d) d)
          (by omega) (by omega) (by omega) dvd_rfl
          (by rw [copyWithin_length])
        intro j
        rw [copyWithin_getD dst p (p - d) d (by omega) j]
        by_cases hj : p ≤ j ∧ j < p + d
        · rw [if_pos hj, if_pos hj]
          congr 1
          rw [Nat.mod_eq_of_lt (by omega)]
        · rw [if_neg hj, if_neg hj]
  · unfold copyBackRefSeq
    rw [if_neg (show ¬ p < d by omega), if_neg (show ¬ dst.length < p + l by omega)]
    by_cases hld : l ≤ d
    · rw [if_pos hld, copyWithin_eq_oracle_of_le dst p d l h1 h2 h3 hld]
    · rw [if_neg hld]
      rfl

/-- C4 witness: scenario S4 of the specification, destination `"ABC00000"`,
`out_pos = 3`, `dist = 3`, `length = 5`; the result is `"ABCABCAB"`. -/
theorem C4_copyBackRef_oracle_witness :
    copyBackRef [65, 66, 67, 0, 0, 0, 0, 0] 3 3 5 =
      .ok (oracleCopy [65, 66, 67, 0, 0, 0, 0, 0] 3 3 5) ∧
    copyBackRefSeq [65, 66, 67, 0, 0, 0, 0, 0] 3 3 5 =
      .ok (oracleCopy [65, 66, 67, 0, 0, 0, 0, 0] 3 3 5) :=
  C4_copyBackRef_oracle [65, 66, 67, 0, 0, 0, 0, 0] 3 3 5
    (by decide) (by decide) (by decide)

/-- C6 counterexample: the claim says a call with `dist < 1` fails with
`LOOKBEHIND_UNDERRUN`.  It does not: with `dist = 0` and `out_pos = 1` the
check `out_pos - dist < 0` passes and both implementations return success. -/
theorem C6_dist_zero_counterexample :
    copyBackRef [0, 0] 1 0 0 = .ok [0, 0] ∧ copyBackRefSeq [0, 0] 1 0 0 = .ok [0, 0] := by
  decide

/-- C6 amended: both implementations fail with `LOOKBEHIND_UNDERRUN` exactly
when `out_pos - dist < 0` (a `dist < 1` with `out_pos ≥ dist` does not fail),
and fail with `OUTPUT_OVERRUN` when `out_pos - dist ≥ 0` and
`out_pos + length > len(dst)` (the underrun check runs first). -/
theorem C6_copyBackRef_precondition_errors (dst : List Nat) (p d l : Nat) :
    (p < d → copyBackRef dst p d l = .error .lookBehindUnderrun ∧
             copyBackRefSeq dst p d l = .error .lookBehindUnderrun) ∧
    (d ≤ p → dst.length < p + l → copyBackRef dst p d l = .error .outputOverrun ∧
             copyBackRefSeq dst p d l = .error .outputOverrun) := by
  constructor
  · intro h
    unfold copyBackRef copyBackRefSeq
    rw [if_pos h, if_pos h]
    exact ⟨rfl, rfl⟩
  · intro h1 h2
    unfold copyBackRef copyBackRefSeq
    rw [if_neg (show ¬ p < d by omega), if_pos h2,
        if_neg (show ¬ p < d by omega), if_pos h2]
    exact ⟨rfl, rfl⟩

/-- C6 witness: the two failing calls of the package's own tests,
`copyBackRef(dst8, 2, 3, 2)` (underrun) and `copyBackRef(dst8, 7, 1, 2)`
(overrun). -/
theorem C6_copyBackRef_precondition_errors_witness :
    (copyBackRef (List.replicate 8 0) 2 3 2 = .error .lookBehindUnderrun ∧
     copyBackRefSeq (List.replicate 8 0) 2 3 2 = .error .lookBehindUnderrun) ∧
    (copyBackRef (List.replicate 8 0) 7 1 2 = .error .outputOverrun ∧
     copyBackRefSeq (List.replicate 8 0) 7 1 2 = .error .outputOverrun) :=
  ⟨(C6_copyBackRef_precondition_errors (List.replicate 8 0) 2 3 2).1 (by decide),
   (C6_copyBackRef_precondition_errors (List.replicate 8 0) 7 1 2).2 (by decide) (by decide)⟩

/-- C3 counterexample: the stream `[0x10, 0x01, 0x00, 0x00]` is an M4-class
instruction (`t = 16`) whose zero-extended decoded length is `7 + 1 + 2 = 10`
and whose decoded distance base is zero.  The claim requires `INPUT_OVERRUN`
for any decoded length other than 3; the decoder instead returns success
(terminator) without any length check. -/
theorem C3_strict_terminator_counterexample :
    decompressCore [16, 1, 0, 0] [] = ⟨[], 0, 4, none⟩ := by decide

/-- C3 amended: whenever an M4-class instruction byte (`16 ≤ t ≤ 31`) decodes
a distance base `((t&8)<<11) + (v>>2)` of zero, the decoder returns success
(terminator) at the current positions, for every decoded match length (no
`len = 3` check is performed). -/
theorem C3_terminator_accepts_any_length (src dst : List Nat) (ctx : DCtx)
    (fuel t tsb inOff outOff ml0 off1 v off2 : Nat)
    (ht1 : 16 ≤ t) (ht2 : t < 32)
    (hml : (if t &&& 7 = 0 then readZeroExtendedLength src src.length 7 inOff
            else .ok (t &&& 7, inOff)) = (.ok (ml0, off1) : Except LzoErr (Nat × Nat)))
    (hu : readUint16LE src src.length off1 = .ok (v, off2))
    (hd0 : (v >>> 2) + ((t &&& 8) <<< 11) = 0) :
    decompLoop src (fuel + 1) ctx t tsb inOff outOff dst = ⟨dst, outOff, off2, none⟩ := by
  rw [decompLoop]
  have hstep : decompStep src ctx t tsb inOff outOff dst = .fin dst outOff off2 := by
    have hm : matchStep src t inOff outOff dst = .fin dst outOff off2 := by
      unfold matchStep
      rw [if_neg (show ¬ t < 16 by omega), if_neg (show ¬ 64 ≤ t by omega),
          if_neg (show ¬ 32 ≤ t by omega), hml]
      simp only [hu, hd0, if_true]
    cases ctx with
    | beginLoop => simp only [decompStep]; rw [if_pos ht1]; exact hm
    | firstLiteralRun => simp only [decompStep]; rw [if_pos ht1]; exact hm
    | inMatch => simp only [decompStep]; exact hm
  rw [hstep]

/-- C3 amended witness: the counterexample stream, decoded length 10. -/
theorem C3_terminator_accepts_any_length_witness :
    decompLoop [16, 1, 0, 0] 5 .beginLoop 16 0 1 0 [] = ⟨[], 0, 4, none⟩ :=
  C3_terminator_accepts_any_length [16, 1, 0, 0] [] .beginLoop 4 16 0 1 0 8 2 0 4
    (by decide) (by decide) (by decide) (by decide) (by decide)

/-- C5: the failing input of the claim.  The stream starts with `t0 = 18`
(initial literal run of one byte, `0x41`), followed by the instruction byte
`0x00` with next byte `0x00` and a terminator.  Reference
`lzo1x_decompress_safe` decoders - the behavior the claim describes - set the
decoder state to `t0 - 17 = 1` and decode the `0x00` as a short M1 match of
length 2 with distance `(0>>2) + (0<<2) + 1 = 1`, so decoding succeeds with
output `[65, 65, 65]`.  This decoder instead keeps every `t0 > 17` in its
first-literal-run state and decodes the `0x00` as the M1-bis form with
distance `0x800 + 1 = 2049 > out_pos`, failing with `LOOKBEHIND_UNDERRUN`. -/
theorem C5_initial_state_failing_input :
    decompressCore [18, 65, 0, 0, 17, 0, 0] [0, 0, 0] =
      ⟨[65, 0, 0], 0, 0, some .lookBehindUnderrun⟩ := by decide

/-! ## C7: failure atomicity -/

theorem decompLoop_err_zero (src : List Nat) :
    ∀ fuel ctx t tsb inOff outOff dst,
      (decompLoop src fuel ctx t tsb inOff outOff dst).err ≠ none →
      (decompLoop src fuel ctx t tsb inOff outOff dst).outW = 0 ∧
      (decompLoop src fuel ctx t tsb inOff outOff dst).inC = 0 := by
  intro fuel
  induction fuel with
  | zero => intro ctx t tsb inOff outOff dst _; exact ⟨rfl, rfl⟩
  | succ fuel ih =>
    intro ctx t tsb inOff outOff dst herr
    rw [decompLoop] at herr ⊢
    cases hstep : decompStep src ctx t tsb inOff outOff dst with
    | fail d e => exact ⟨rfl, rfl⟩
    | fin d oW iC => rw [hstep] at herr; exact absurd rfl herr
    | next ctx1 t1 tsb1 inOff1 outOff1 dst1 =>
      rw [hstep] at herr
      exact ih ctx1 t1 tsb1 inOff1 outOff1 dst1 herr

/-- C7: failure atomicity.  Whenever `decompressCore` returns an error it
reports both positions as zero, and `DecompressN` exposes no partial output on
error: it returns an empty slice and consumed count zero. -/
theorem C7_failure_atomicity (src dst : List Nat) (opts : Option DecompressOptions) :
    ((decompressCore src dst).err ≠ none →
       (decompressCore src dst).outW = 0 ∧ (decompressCore src dst).inC = 0) ∧
    ((DecompressN src opts).2.2 ≠ none →
       (DecompressN src opts).1 = [] ∧ (DecompressN src opts).2.1 = 0) := by
  constructor
  · intro herr
    unfold decompressCore at herr ⊢
    by_cases h0 : src.length = 0
    · rw [if_pos h0] at herr ⊢; exact ⟨rfl, rfl⟩
    · rw [if_neg h0] at herr ⊢
      by_cases h1 : 17 < listGet src 0
      · rw [if_pos h1] at herr ⊢
        by_cases h2 : src.length < 1 + (listGet src 0 - 17) ∨
            dst.length < listGet src 0 - 17
        · rw [if_pos h2] at herr ⊢; exact ⟨rfl, rfl⟩
        · rw [if_neg h2] at herr ⊢
          by_cases h3 : src.length ≤ 1 + (listGet src 0 - 17)
          · rw [if_pos h3] at herr ⊢; exact ⟨rfl, rfl⟩
          · rw [if_neg h3] at herr ⊢
            exact decompLoop_err_zero src _ _ _ _ _ _ _ herr
      · rw [if_neg h1] at herr ⊢
        exact decompLoop_err_zero src _ _ _ _ _ _ _ herr
  · intro herr
    cases opts with
    | none => exact ⟨rfl, rfl⟩
    | some o =>
      simp only [DecompressN] at herr ⊢
      by_cases h0 : src.length = 0
      · rw [if_pos h0] at herr ⊢; exact ⟨rfl, rfl⟩
      · rw [if_neg h0] at herr ⊢
        by_cases h1 : o.outLen < 0
        · rw [if_pos h1] at herr ⊢; exact ⟨rfl, rfl⟩
        · rw [if_neg h1] at herr ⊢
          cases hres : (decompressCore src (List.replicate o.outLen.toNat 0)).err with
          | some e => exact ⟨rfl, rfl⟩
          | none => rw [hres] at herr; exact absurd rfl herr

/-- C7 witness: the empty source errors with `EMPTY_INPUT` and both positions
are zero (and `DecompressN` with no options errors with `OPTIONS_REQUIRED`). -/
theorem C7_failure_atomicity_witness :
    ((decompressCore [] [0]).outW = 0 ∧ (decompressCore [] [0]).inC = 0) ∧
    ((DecompressN [] none).1 = [] ∧ (DecompressN [] none).2.1 = 0) :=
  ⟨(C7_failure_atomicity [] [0] none).1 (by decide),
   (C7_failure_atomicity [] [0] none).2 (by decide)⟩

/-! ## C8: the fast-path hash -/

theorem shiftLeft_xor_distrib (a b n : Nat) : (a ^^^ b) <<< n = (a <<< n) ^^^ (b <<< n) := by
  apply Nat.eq_of_testBit_eq
  intro i
  simp only [Nat.testBit_shiftLeft, Nat.testBit_xor]
  cases h : decide (i ≥ n) <;> simp

theorem shiftLeft_shiftLeft_add (a m n : Nat) : (a <<< m) <<< n = a <<< (m + n) := by
  simp only [Nat.shiftLeft_eq, Nat.pow_add, Nat.mul_assoc]

/-- C8 counterexample: at the four bytes `in[p..p+3] = [0, 0, 1, 0]` the
dictionary index computed by the parser differs from the claim's formula
`((0x21 * (b3<<16 ^ b2<<11 ^ b1<<5 ^ b0)) >> 5) mod 16384` (the parser index
is 1056, the claimed formula gives 2112). -/
theorem C8_hash_counterexample :
    fastDictIndex (fastHashKey 0 0 1 0) ≠
      ((0x21 * ((0 <<< 16) ^^^ ((1 : Nat) <<< 11) ^^^ (0 <<< 5) ^^^ 0)) >>> 5) % 16384 := by
  decide

/-- C8 amended: the first dictionary index probed at position `p` equals
`((0x21 * k) >> 5) mod 16384` with `k = in[p+3]<<16 ^ in[p+2]<<10 ^
in[p+1]<<5 ^ in[p]` (shift 10, not 11, for the third byte). -/
theorem C8_fast_hash_formula (b0 b1 b2 b3 : Nat) :
    fastDictIndex (fastHashKey b0 b1 b2 b3) =
      ((0x21 * ((b3 <<< 16) ^^^ (b2 <<< 10) ^^^ (b1 <<< 5) ^^^ b0)) >>> 5) % 16384 := by
  have hkey : fastHashKey b0 b1 b2 b3 =
      (b3 <<< 16) ^^^ (b2 <<< 10) ^^^ (b1 <<< 5) ^^^ b0 := by
    unfold fastHashKey
    simp only [shiftLeft_xor_distrib, shiftLeft_shiftLeft_add]
  rw [fastDictIndex, hkey]
  have hmask : dictMask = 2 ^ 14 - 1 := by decide
  rw [hmask, Nat.and_pow_two_sub_one_eq_mod]

/-! ## C9: level clamping of the 999 compressor -/

/-- C9: `compress999Level` at any integer level (including levels below 1 and
above 9) returns exactly the same result - same output bytes and same error
component - as at the level clamped into `[1, 9]`: the function clamps before
doing anything else, so an out-of-range level is never rejected and never
changes the output. -/
theorem C9_compress999Level_clamp (inp : List Nat) (level : Int) :
    compress999Level inp level = compress999Level inp (min 9 (max 1 level)) := by
  simp only [compress999Level]
  have h : (if (9 : Int) < (if level < 1 then 1 else level) then (9 : Int)
              else (if level < 1 then 1 else level)) =
           (if (9 : Int) < (if min 9 (max 1 level) < 1 then 1 else min 9 (max 1 level))
              then (9 : Int)
              else (if min 9 (max 1 level) < 1 then 1 else min 9 (max 1 level))) := by
    rcases le_or_lt level 1 with h1 | h1 <;> rcases le_or_lt level 9 with h9 | h9 <;>
      simp [min_def, max_def] <;> split_ifs <;> omega
  rw [h]

/-! ## C2: output-bound safety

The decoder's control flow (which branches it takes, which offsets it reads)
never depends on the contents of the destination buffer, only on its length.
Two runs on destinations of lengths `n1 ≤ n2` therefore proceed in lockstep
until the smaller buffer's bound check fails, and that check fails with
`ErrInputOverrun` (the literal-run and trailing-literal guards) or
`ErrOutputOverrun` (the back-reference copy guard). -/

theorem copyBackRef_ok_length (dst : List Nat) (p dist l : Nat) (d' : List Nat)
    (h : copyBackRef dst p dist l = .ok d') : d'.length = dst.length := by
  unfold copyBackRef at h
  split_ifs at h with h1 h2 h3
  · injection h with h
    rw [← h, copyWithin_length]
  · injection h with h
    rw [← h, backRefLoop_length, copyWithin_length]

theorem copyBackRef_lock (d1 d2 : List Nat) (p dist l : Nat)
    (hlen : d1.length ≤ d2.length) :
    (∃ e, copyBackRef d1 p dist l = .error e ∧ copyBackRef d2 p dist l = .error e) ∨
    (∃ d1' d2', copyBackRef d1 p dist l = .ok d1' ∧ copyBackRef d2 p dist l = .ok d2' ∧
      p + l ≤ d1.length) ∨
    (copyBackRef d1 p dist l = .error .outputOverrun ∧ d1.length < p + l) := by
  unfold copyBackRef
  by_cases h1 : p < dist
  · simp only [if_pos h1]
    exact Or.inl ⟨_, rfl, rfl⟩
  · simp only [if_neg h1]
    by_cases h2 : d1.length < p + l
    · rw [if_pos h2]
      by_cases h2' : d2.length < p + l
      · rw [if_pos h2']
        exact Or.inl ⟨_, rfl, rfl⟩
      · exact Or.inr (Or.inr ⟨rfl, h2⟩)
    · rw [if_neg h2, if_neg (show ¬ d2.length < p + l by omega)]
      by_cases h3 : l ≤ dist
      · simp only [if_pos h3]
        exact Or.inr (Or.inl ⟨_, _, rfl, rfl, by omega⟩)
      · simp only [if_neg h3]
        exact Or.inr (Or.inl ⟨_, _, rfl, rfl, by omega⟩)

theorem matchDoneStep_lock (src : List Nat) (tsb inOff outOff : Nat) (d1 d2 : List Nat)
    (ho : outOff ≤ d1.length) (hlen : d1.length ≤ d2.length) :
    stepLock d1.length (matchDoneStep src tsb inOff outOff d1)
      (matchDoneStep src tsb inOff outOff d2) := by
  simp only [matchDoneStep, stepLock]
  by_cases htc : tsb &&& 3 = 0
  · simp only [if_pos htc]
    by_cases heof : src.length ≤ inOff
    · simp only [if_pos heof]
      exact Or.inl ⟨_, _, _, rfl, rfl⟩
    · simp only [if_neg heof]
      exact Or.inr (Or.inr (Or.inl ⟨_, _, _, _, _, _, _, rfl, rfl, ho⟩))
  · simp only [if_neg htc]
    by_cases hg1 : src.length < inOff + (tsb &&& 3) ∨ d1.length < outOff + (tsb &&& 3)
    · simp only [if_pos hg1]
      by_cases hg2 : src.length < inOff + (tsb &&& 3) ∨ d2.length < outOff + (tsb &&& 3)
      · simp only [if_pos hg2]
        exact Or.inl ⟨_, _, _, rfl, rfl⟩
      · simp only [if_neg hg2]
        have hd1 : d1.length < outOff + (tsb &&& 3) := by
          rcases hg1 with hg1 | hg1
          · exact absurd (Or.inl hg1) hg2
          · exact hg1
        by_cases heof : src.length ≤ inOff + (tsb &&& 3)
        · simp only [if_pos heof]
          exact Or.inr (Or.inr (Or.inr ⟨_, _, rfl, Or.inl rfl, Or.inl ⟨_, _, rfl⟩⟩))
        · simp only [if_neg heof]
          exact Or.inr (Or.inr (Or.inr ⟨_, _, rfl, Or.inl rfl,
            Or.inr ⟨_, _, _, _, _, _, rfl, hd1⟩⟩))
    · have hg2 : ¬ (src.length < inOff + (tsb &&& 3) ∨ d2.length < outOff + (tsb &&& 3)) := by
        push_neg at hg1 ⊢
        omega
      simp only [if_neg hg1, if_neg hg2]
      by_cases heof : src.length ≤ inOff + (tsb &&& 3)
      · simp only [if_pos heof]
        exact Or.inl ⟨_, _, _, rfl, rfl⟩
      · simp only [if_neg heof]
        refine Or.inr (Or.inr (Or.inl ⟨_, _, _, _, _, _, _, rfl, rfl, ?_⟩))
        push_neg at hg1
        omega

theorem matchDoneStep_no_fin (src : List Nat) (tsb inOff outOff : Nat)
    (dst d : List Nat) (oW iC : Nat) :
    matchDoneStep src tsb inOff outOff dst ≠ .fin d oW iC := by
  intro h
  simp only [matchDoneStep] at h
  split_ifs at h

theorem matchDoneStep_next_mono (src : List Nat) (tsb inOff outOff : Nat) (dst : List Nat)
    (c : DCtx) (t s i o : Nat) (d : List Nat)
    (h : matchDoneStep src tsb inOff outOff dst = .next c t s i o d) : outOff ≤ o := by
  simp only [matchDoneStep] at h
  split_ifs at h <;> (injection h with h1 h2 h3 h4 h5 h6; omega)

theorem cbrThen_lock (src : List Nat) (tsb1 inOff1 outOff dist l : Nat)
    (d1 d2 : List Nat) (ho : outOff ≤ d1.length) (hlen : d1.length ≤ d2.length) :
    stepLock d1.length
      (match copyBackRef d1 outOff dist l with
       | .error e => .fail d1 e
       | .ok dst1 => matchDoneStep src tsb1 inOff1 (outOff + l) dst1)
      (match copyBackRef d2 outOff dist l with
       | .error e => .fail d2 e
       | .ok dst1 => matchDoneStep src tsb1 inOff1 (outOff + l) dst1) := by
  rcases copyBackRef_lock d1 d2 outOff dist l hlen with
    ⟨e, he1, he2⟩ | ⟨d1', d2', hc1, hc2, hple⟩ | ⟨hc1, hlt⟩
  · rw [he1, he2]
    exact Or.inl ⟨_, _, _, rfl, rfl⟩
  · rw [hc1, hc2]
    have l1 := copyBackRef_ok_length d1 outOff dist l d1' hc1
    have l2 := copyBackRef_ok_length d2 outOff dist l d2' hc2
    have h := matchDoneStep_lock src tsb1 inOff1 (outOff + l) d1' d2' (by omega) (by omega)
    rw [l1] at h
    exact h
  · rw [hc1]
    cases hc2 : copyBackRef d2 outOff dist l with
    | error e =>
      exact Or.inr (Or.inr (Or.inr ⟨_, _, rfl, Or.inr rfl, Or.inl ⟨_, _, rfl⟩⟩))
    | ok d2' =>
      cases hm : matchDoneStep src tsb1 inOff1 (outOff + l) d2' with
      | fail dd ee =>
        simp only [hm]
        exact Or.inr (Or.inr (Or.inr ⟨_, _, rfl, Or.inr rfl, Or.inl ⟨_, _, rfl⟩⟩))
      | fin dd oW iC =>
        exact absurd hm (matchDoneStep_no_fin src tsb1 inOff1 (outOff + l) d2' dd oW iC)
      | next c t s i o dd =>
        simp only [hm]
        have hmo := matchDoneStep_next_mono src tsb1 inOff1 (outOff + l) d2' c t s i o dd hm
        exact Or.inr (Or.inr (Or.inr ⟨_, _, rfl, Or.inr rfl,
          Or.inr ⟨_, _, _, _, _, _, rfl, by omega⟩⟩))

theorem matchStep_lock (src : List Nat) (t inOff outOff : Nat) (d1 d2 : List Nat)
    (ho : outOff ≤ d1.length) (hlen : d1.length ≤ d2.length) :
    stepLock d1.length (matchStep src t inOff outOff d1)
      (matchStep src t inOff outOff d2) := by
  simp only [matchStep]
  by_cases h1 : t < 16
  · simp only [if_pos h1]
    by_cases h2 : src.length ≤ inOff
    · simp only [if_pos h2, stepLock]
      exact Or.inl ⟨_, _, _, rfl, rfl⟩
    · simp only [if_neg h2]
      exact cbrThen_lock src (t &&& 255) (inOff + 1) outOff
        (1 + (t >>> 2) + (listGet src inOff <<< 2)) 2 d1 d2 ho hlen
  · simp only [if_neg h1]
    by_cases h2 : 64 ≤ t
    · simp only [if_pos h2]
      by_cases h3 : src.length ≤ inOff
      · simp only [if_pos h3, stepLock]
        exact Or.inl ⟨_, _, _, rfl, rfl⟩
      · simp only [if_neg h3]
        exact cbrThen_lock src (t &&& 255) (inOff + 1) outOff
          (((t >>> 2) &&& 7) + (listGet src inOff <<< 3) + 1) ((t >>> 5) - 1 + 2)
          d1 d2 ho hlen
    · simp only [if_neg h2]
      by_cases h3 : 32 ≤ t
      · simp only [if_pos h3]
        cases hml : (if t &&& 31 = 0 then readZeroExtendedLength src src.length 31 inOff
                     else Except.ok (t &&& 31, inOff)) with
        | error e =>
          simp only [stepLock]
          exact Or.inl ⟨_, _, _, rfl, rfl⟩
        | ok pr =>
          obtain ⟨ml0, off1⟩ := pr
          cases hu : readUint16LE src src.length off1 with
          | error e =>
            simp only [hu, stepLock]
            exact Or.inl ⟨_, _, _, rfl, rfl⟩
          | ok pr2 =>
            obtain ⟨v, off2⟩ := pr2
            simp only [hu]
            exact cbrThen_lock src (v &&& 255) off2 outOff ((v >>> 2) + 1) (ml0 + 2)
              d1 d2 ho hlen
      · simp only [if_neg h3]
        cases hml : (if t &&& 7 = 0 then readZeroExtendedLength src src.length 7 inOff
                     else Except.ok (t &&& 7, inOff)) with
        | error e =>
          simp only [stepLock]
          exact Or.inl ⟨_, _, _, rfl, rfl⟩
        | ok pr =>
          obtain ⟨ml0, off1⟩ := pr
          cases hu : readUint16LE src src.length off1 with
          | error e =>
            simp only [hu, stepLock]
            exact Or.inl ⟨_, _, _, rfl, rfl⟩
          | ok pr2 =>
            obtain ⟨v, off2⟩ := pr2
            simp only [hu]
            by_cases hd0 : (v >>> 2) + ((t &&& 8) <<< 11) = 0
            · simp only [if_pos hd0, stepLock]
              exact Or.inr (Or.inl ⟨_, _, _, _, rfl, rfl, ho⟩)
            · simp only [if_neg hd0]
              exact cbrThen_lock src (v &&& 255) off2 outOff
                ((v >>> 2) + ((t &&& 8) <<< 11) + 0x4000) (ml0 + 2) d1 d2 ho hlen

theorem matchDoneStep_dstLen (src : List Nat) (tsb inOff outOff : Nat) (dst : List Nat) :
    (stepDst (matchDoneStep src tsb inOff outOff dst)).length = dst.length := by
  simp only [matchDoneStep]
  split_ifs <;> simp [stepDst, copyFromSrc_length]

theorem cbrThen_dstLen (src : List Nat) (tsb1 inOff1 outOff dist l : Nat) (dst : List Nat) :
    (stepDst (match copyBackRef dst outOff dist l with
       | .error e => .fail dst e
       | .ok dst1 => matchDoneStep src tsb1 inOff1 (outOff + l) dst1)).length = dst.length := by
  cases hc : copyBackRef dst outOff dist l with
  | error e => simp [stepDst]
  | ok dst1 =>
    simp only
    rw [matchDoneStep_dstLen, copyBackRef_ok_length dst outOff dist l dst1 hc]

theorem matchStep_dstLen (src : List Nat) (t inOff outOff : Nat) (dst : List Nat) :
    (stepDst (matchStep src t inOff outOff dst)).length = dst.length := by
  simp only [matchStep]
  by_cases h1 : t < 16
  · simp only [if_pos h1]
    by_cases h2 : src.length ≤ inOff
    · simp only [if_pos h2, stepDst]
    · simp only [if_neg h2]
      exact cbrThen_dstLen src (t &&& 255) (inOff + 1) outOff
        (1 + (t >>> 2) + (listGet src inOff <<< 2)) 2 dst
  · simp only [if_neg h1]
    by_cases h2 : 64 ≤ t
    · simp only [if_pos h2]
      by_cases h3 : src.length ≤ inOff
      · simp only [if_pos h3, stepDst]
      · simp only [if_neg h3]
        exact cbrThen_dstLen src (t &&& 255) (inOff + 1) outOff
          (((t >>> 2) &&& 7) + (listGet src inOff <<< 3) + 1) ((t >>> 5) - 1 + 2) dst
    · simp only [if_neg h2]
      by_cases h3 : 32 ≤ t
      · simp only [if_pos h3]
        cases hml : (if t &&& 31 = 0 then readZeroExtendedLength src src.length 31 inOff
                     else Except.ok (t &&& 31, inOff)) with
        | error e => simp [stepDst]
        | ok pr =>
          obtain ⟨ml0, off1⟩ := pr
          cases hu : readUint16LE src src.length off1 with
          | error e => simp [hu, stepDst]
          | ok pr2 =>
            obtain ⟨v, off2⟩ := pr2
            simp only [hu]
            exact cbrThen_dstLen src (v &&& 255) off2 outOff ((v >>> 2) + 1) (ml0 + 2) dst
      · simp only [if_neg h3]
        cases hml : (if t &&& 7 = 0 then readZeroExtendedLength src src.length 7 inOff
                     else Except.ok (t &&& 7, inOff)) with
        | error e => simp [stepDst]
        | ok pr =>
          obtain ⟨ml0, off1⟩ := pr
          cases hu : readUint16LE src src.length off1 with
          | error e => simp [hu, stepDst]
          | ok pr2 =>
            obtain ⟨v, off2⟩ := pr2
            simp only [hu]
            by_cases hd0 : (v >>> 2) + ((t &&& 8) <<< 11) = 0
            · simp only [if_pos hd0, stepDst]
            · simp only [if_neg hd0]
              exact cbrThen_dstLen src (v &&& 255) off2 outOff
                ((v >>> 2) + ((t &&& 8) <<< 11) + 0x4000) (ml0 + 2) dst

theorem decompStep_dstLen (src : List Nat) (ctx : DCtx) (t tsb inOff outOff : Nat)
    (dst : List Nat) :
    (stepDst (decompStep src ctx t tsb inOff outOff dst)).length = dst.length := by
  cases ctx with
  | inMatch =>
    simp only [decompStep]
    exact matchStep_dstLen src t inOff outOff dst
  | firstLiteralRun =>
    simp only [decompStep]
    by_cases h1 : 16 ≤ t
    · simp only [if_pos h1]
      exact matchStep_dstLen src t inOff outOff dst
    · simp only [if_neg h1]
      by_cases h2 : src.length ≤ inOff
      · simp only [if_pos h2, stepDst]
      · simp only [if_neg h2]
        exact cbrThen_dstLen src tsb (inOff + 1) outOff
          ((1 + 0x0800) + (t >>> 2) + (listGet src inOff <<< 2)) 3 dst
  | beginLoop =>
    simp only [decompStep]
    by_cases h1 : 16 ≤ t
    · simp only [if_pos h1]
      exact matchStep_dstLen src t inOff outOff dst
    · simp only [if_neg h1]
      cases hrl : (if t = 0 then readZeroExtendedLength src src.length 15 inOff
                   else Except.ok (t, inOff)) with
      | error e => simp [stepDst]
      | ok pr =>
        obtain ⟨rl0, off1⟩ := pr
        by_cases hg : src.length < off1 + (rl0 + 3) ∨ dst.length < outOff + (rl0 + 3)
        · simp only [if_pos hg, stepDst]
        · simp only [if_neg hg]
          by_cases heof : src.length ≤ off1 + (rl0 + 3)
          · simp only [if_pos heof, stepDst]
            exact copyFromSrc_length dst src outOff off1 (rl0 + 3)
          · simp only [if_neg heof, stepDst]
            exact copyFromSrc_length dst src outOff off1 (rl0 + 3)

theorem decompLoop_dstLen (src : List Nat) :
    ∀ (fuel : Nat) (ctx : DCtx) (t tsb inOff outOff : Nat) (dst : List Nat),
      (decompLoop src fuel ctx t tsb inOff outOff dst).dst.length = dst.length := by
  intro fuel
  induction fuel with
  | zero => intro ctx t tsb inOff outOff dst; rfl
  | succ fuel ih =>
    intro ctx t tsb inOff outOff dst
    rw [decompLoop]
    have hl := decompStep_dstLen src ctx t tsb inOff outOff dst
    cases hstep : decompStep src ctx t tsb inOff outOff dst with
    | fail d e =>
      rw [hstep] at hl
      exact hl
    | fin d oW iC =>
      rw [hstep] at hl
      exact hl
    | next ctx1 t1 tsb1 inOff1 outOff1 dst1 =>
      rw [hstep] at hl
      simp only [stepDst] at hl
      rw [ih ctx1 t1 tsb1 inOff1 outOff1 dst1]
      exact hl

theorem decompStep_lock (src : List Nat) (ctx : DCtx) (t tsb inOff outOff : Nat)
    (d1 d2 : List Nat) (ho : outOff ≤ d1.length) (hlen : d1.length ≤ d2.length) :
    stepLock d1.length (decompStep src ctx t tsb inOff outOff d1)
      (decompStep src ctx t tsb inOff outOff d2) := by
  cases ctx with
  | inMatch =>
    simp only [decompStep]
    exact matchStep_lock src t inOff outOff d1 d2 ho hlen
  | firstLiteralRun =>
    simp only [decompStep]
    by_cases h1 : 16 ≤ t
    · simp only [if_pos h1]
      exact matchStep_lock src t inOff outOff d1 d2 ho hlen
    · simp only [if_neg h1]
      by_cases h2 : src.length ≤ inOff
      · simp only [if_pos h2, stepLock]
        exact Or.inl ⟨_, _, _, rfl, rfl⟩
      · simp only [if_neg h2]
        exact cbrThen_lock src tsb (inOff + 1) outOff
          (1 + 0x0800 + (t >>> 2) + (listGet src inOff <<< 2)) 3 d1 d2 ho hlen
  | beginLoop =>
    simp only [decompStep]
    by_cases h1 : 16 ≤ t
    · simp only [if_pos h1]
      exact matchStep_lock src t inOff outOff d1 d2 ho hlen
    · simp only [if_neg h1]
      cases hrl : (if t = 0 then readZeroExtendedLength src src.length 15 inOff
                   else Except.ok (t, inOff)) with
      | error e =>
        simp only [stepLock]
        exact Or.inl ⟨_, _, _, rfl, rfl⟩
      | ok pr =>
        obtain ⟨rl0, off1⟩ := pr
        by_cases hg1 : src.length < off1 + (rl0 + 3) ∨ d1.length < outOff + (rl0 + 3)
        · simp only [if_pos hg1]
          by_cases hg2 : src.length < off1 + (rl0 + 3) ∨ d2.length < outOff + (rl0 + 3)
          · simp only [if_pos hg2, stepLock]
            exact Or.inl ⟨_, _, _, rfl, rfl⟩
          · simp only [if_neg hg2]
            have hd1 : d1.length < outOff + (rl0 + 3) := by
              rcases hg1 with hg1 | hg1
              · exact absurd (Or.inl hg1) hg2
              · exact hg1
            by_cases heof : src.length ≤ off1 + (rl0 + 3)
            · simp only [if_pos heof, stepLock]
              exact Or.inr (Or.inr (Or.inr ⟨_, _, rfl, Or.inl rfl, Or.inl ⟨_, _, rfl⟩⟩))
            · simp only [if_neg heof, stepLock]
              exact Or.inr (Or.inr (Or.inr ⟨_, _, rfl, Or.inl rfl,
                Or.inr ⟨_, _, _, _, _, _, rfl, hd1⟩⟩))
        · have hg2 : ¬ (src.length < off1 + (rl0 + 3) ∨ d2.length < outOff + (rl0 + 3)) := by
            push_neg at hg1 ⊢
            omega
          simp only [if_neg hg1, if_neg hg2]
          by_cases heof : src.length ≤ off1 + (rl0 + 3)
          · simp only [if_pos heof, stepLock]
            exact Or.inl ⟨_, _, _, rfl, rfl⟩
          · simp only [if_neg heof, stepLock]
            refine Or.inr (Or.inr (Or.inl ⟨_, _, _, _, _, _, _, rfl, rfl, ?_⟩))
            push_neg at hg1
            omega

theorem cbrThen_next_mono (src : List Nat) (tsb1 inOff1 outOff dist l : Nat) (dst : List Nat)
    (c : DCtx) (t s i o : Nat) (d : List Nat)
    (h : (match copyBackRef dst outOff dist l with
          | .error e => .fail dst e
          | .ok dst1 => matchDoneStep src tsb1 inOff1 (outOff + l) dst1 : StepRes) =
         .next c t s i o d) :
    outOff ≤ o := by
  cases hc : copyBackRef dst outOff dist l with
  | error e =>
    simp only [hc] at h
    exact StepRes.noConfusion h
  | ok dst1 =>
    simp only [hc] at h
    have := matchDoneStep_next_mono src tsb1 inOff1 (outOff + l) dst1 c t s i o d h
    omega

theorem cbrThen_no_fin (src : List Nat) (tsb1 inOff1 outOff dist l : Nat) (dst : List Nat)
    (d : List Nat) (oW iC : Nat)
    (h : (match copyBackRef dst outOff dist l with
          | .error e => .fail dst e
          | .ok dst1 => matchDoneStep src tsb1 inOff1 (outOff + l) dst1 : StepRes) =
         .fin d oW iC) :
    False := by
  cases hc : copyBackRef dst outOff dist l with
  | error e =>
    simp only [hc] at h
    exact StepRes.noConfusion h
  | ok dst1 =>
    simp only [hc] at h
    exact matchDoneStep_no_fin src tsb1 inOff1 (outOff + l) dst1 d oW iC h

theorem matchStep_mono (src : List Nat) (t inOff outOff : Nat) (dst : List Nat) :
    (∀ c t1 s i o d, matchStep src t inOff outOff dst = .next c t1 s i o d → outOff ≤ o) ∧
    (∀ d oW iC, matchStep src t inOff outOff dst = .fin d oW iC → outOff ≤ oW) := by
  simp only [matchStep]
  by_cases h1 : t < 16
  · simp only [if_pos h1]
    by_cases h2 : src.length ≤ inOff
    · simp only [if_pos h2]
      exact ⟨fun _ _ _ _ _ _ h => by simp at h, fun _ _ _ h => by simp at h⟩
    · simp only [if_neg h2]
      exact ⟨fun c t1 s i o d h => cbrThen_next_mono src (t &&& 255) (inOff + 1) outOff
          (1 + (t >>> 2) + (listGet src inOff <<< 2)) 2 dst c t1 s i o d h,
        fun d oW iC h => (cbrThen_no_fin src (t &&& 255) (inOff + 1) outOff
          (1 + (t >>> 2) + (listGet src inOff <<< 2)) 2 dst d oW iC h).elim⟩
  · simp only [if_neg h1]
    by_cases h2 : 64 ≤ t
    · simp only [if_pos h2]
      by_cases h3 : src.length ≤ inOff
      · simp only [if_pos h3]
        exact ⟨fun _ _ _ _ _ _ h => by simp at h, fun _ _ _ h => by simp at h⟩
      · simp only [if_neg h3]
        exact ⟨fun c t1 s i o d h => cbrThen_next_mono src (t &&& 255) (inOff + 1) outOff
            (((t >>> 2) &&& 7) + (listGet src inOff <<< 3) + 1) ((t >>> 5) - 1 + 2)
            dst c t1 s i o d h,
          fun d oW iC h => (cbrThen_no_fin src (t &&& 255) (inOff + 1) outOff
            (((t >>> 2) &&& 7) + (listGet src inOff <<< 3) + 1) ((t >>> 5) - 1 + 2)
            dst d oW iC h).elim⟩
    · simp only [if_neg h2]
      by_cases h3 : 32 ≤ t
      · simp only [if_pos h3]
        cases hml : (if t &&& 31 = 0 then readZeroExtendedLength src src.length 31 inOff
                     else Except.ok (t &&& 31, inOff)) with
        | error e =>
          exact ⟨fun _ _ _ _ _ _ h => by simp at h, fun _ _ _ h => by simp at h⟩
        | ok pr =>
          obtain ⟨ml0, off1⟩ := pr
          cases hu : readUint16LE src src.length off1 with
          | error e =>
            simp only [hu]
            exact ⟨fun _ _ _ _ _ _ h => by simp at h, fun _ _ _ h => by simp at h⟩
          | ok pr2 =>
            obtain ⟨v, off2⟩ := pr2
            simp only [hu]
            exact ⟨fun c t1 s i o d h => cbrThen_next_mono src (v &&& 255) off2 outOff
                ((v >>> 2) + 1) (ml0 + 2) dst c t1 s i o d h,
              fun d oW iC h => (cbrThen_no_fin src (v &&& 255) off2 outOff
                ((v >>> 2) + 1) (ml0 + 2) dst d oW iC h).elim⟩
      · simp only [if_neg h3]
        cases hml : (if t &&& 7 = 0 then readZeroExtendedLength src src.length 7 inOff
                     else Except.ok (t &&& 7, inOff)) with
        | error e =>
          exact ⟨fun _ _ _ _ _ _ h => by simp at h, fun _ _ _ h => by simp at h⟩
        | ok pr =>
          obtain ⟨ml0, off1⟩ := pr
          cases hu : readUint16LE src src.length off1 with
          | error e =>
            simp only [hu]
            exact ⟨fun _ _ _ _ _ _ h => by simp at h, fun _ _ _ h => by simp at h⟩
          | ok pr2 =>
            obtain ⟨v, off2⟩ := pr2
            simp only [hu]
            by_cases hd0 : (v >>> 2) + ((t &&& 8) <<< 11) = 0
            · simp only [if_pos hd0]
              refine ⟨fun _ _ _ _ _ _ h => by simp at h, fun d oW iC h => ?_⟩
              injection h with ha hb hc
              omega
            · simp only [if_neg hd0]
              exact ⟨fun c t1 s i o d h => cbrThen_next_mono src (v &&& 255) off2 outOff
                  ((v >>> 2) + ((t &&& 8) <<< 11) + 0x4000) (ml0 + 2) dst c t1 s i o d h,
                fun d oW iC h => (cbrThen_no_fin src (v &&& 255) off2 outOff
                  ((v >>> 2) + ((t &&& 8) <<< 11) + 0x4000) (ml0 + 2) dst d oW iC h).elim⟩

theorem decompStep_mono (src : List Nat) (ctx : DCtx) (t tsb inOff outOff : Nat)
    (dst : List Nat) :
    (∀ c t1 s i o d, decompStep src ctx t tsb inOff outOff dst = .next c t1 s i o d →
      outOff ≤ o) ∧
    (∀ d oW iC, decompStep src ctx t tsb inOff outOff dst = .fin d oW iC → outOff ≤ oW) := by
  cases ctx with
  | inMatch =>
    simp only [decompStep]
    exact matchStep_mono src t inOff outOff dst
  | firstLiteralRun =>
    simp only [decompStep]
    by_cases h1 : 16 ≤ t
    · simp only [if_pos h1]
      exact matchStep_mono src t inOff outOff dst
    · simp only [if_neg h1]
      by_cases h2 : src.length ≤ inOff
      · simp only [if_pos h2]
        exact ⟨fun _ _ _ _ _ _ h => by simp at h, fun _ _ _ h => by simp at h⟩
      · simp only [if_neg h2]
        exact ⟨fun c t1 s i o d h => cbrThen_next_mono src tsb (inOff + 1) outOff
            (1 + 0x0800 + (t >>> 2) + (listGet src inOff <<< 2)) 3 dst c t1 s i o d h,
          fun d oW iC h => (cbrThen_no_fin src tsb (inOff + 1) outOff
            (1 + 0x0800 + (t >>> 2) + (listGet src inOff <<< 2)) 3 dst d oW iC h).elim⟩
  | beginLoop =>
    simp only [decompStep]
    by_cases h1 : 16 ≤ t
    · simp only [if_pos h1]
      exact matchStep_mono src t inOff outOff dst
    · simp only [if_neg h1]
      cases hrl : (if t = 0 then readZeroExtendedLength src src.length 15 inOff
                   else Except.ok (t, inOff)) with
      | error e =>
        exact ⟨fun _ _ _ _ _ _ h => by simp at h, fun _ _ _ h => by simp at h⟩
      | ok pr =>
        obtain ⟨rl0, off1⟩ := pr
        by_cases hg : src.length < off1 + (rl0 + 3) ∨ dst.length < outOff + (rl0 + 3)
        · simp only [if_pos hg]
          exact ⟨fun _ _ _ _ _ _ h => by simp at h, fun _ _ _ h => by simp at h⟩
        · simp only [if_neg hg]
          by_cases heof : src.length ≤ off1 + (rl0 + 3)
          · simp only [if_pos heof]
            exact ⟨fun _ _ _ _ _ _ h => by simp at h, fun _ _ _ h => by simp at h⟩
          · simp only [if_neg heof]
            refine ⟨fun c t1 s i o d h => ?_, fun _ _ _ h => by simp at h⟩
            injection h with ha hb hc hd he hf
            omega

theorem decompLoop_outW_mono (src : List Nat) :
    ∀ (fuel : Nat) (ctx : DCtx) (t tsb inOff outOff : Nat) (dst : List Nat),
      (decompLoop src fuel ctx t tsb inOff outOff dst).err = none →
      outOff ≤ (decompLoop src fuel ctx t tsb inOff outOff dst).outW := by
  intro fuel
  induction fuel with
  | zero =>
    intro ctx t tsb inOff outOff dst h
    exact Option.noConfusion h
  | succ fuel ih =>
    intro ctx t tsb inOff outOff dst h
    rw [decompLoop] at h ⊢
    have hm := decompStep_mono src ctx t tsb inOff outOff dst
    cases hstep : decompStep src ctx t tsb inOff outOff dst with
    | fail d e =>
      rw [hstep] at h
      exact Option.noConfusion h
    | fin d oW iC =>
      exact hm.2 d oW iC hstep
    | next ctx1 t1 tsb1 inOff1 outOff1 dst1 =>
      rw [hstep] at h
      have h1 := hm.1 ctx1 t1 tsb1 inOff1 outOff1 dst1 hstep
      have h2 := ih ctx1 t1 tsb1 inOff1 outOff1 dst1 h
      show outOff ≤ (decompLoop src fuel ctx1 t1 tsb1 inOff1 outOff1 dst1).outW
      omega

theorem decompLoop_lock (src : List Nat) :
    ∀ (fuel : Nat) (ctx : DCtx) (t tsb inOff outOff : Nat) (d1 d2 : List Nat),
      outOff ≤ d1.length → d1.length ≤ d2.length →
      (((decompLoop src fuel ctx t tsb inOff outOff d1).err =
          (decompLoop src fuel ctx t tsb inOff outOff d2).err ∧
        (decompLoop src fuel ctx t tsb inOff outOff d1).outW =
          (decompLoop src fuel ctx t tsb inOff outOff d2).outW ∧
        (decompLoop src fuel ctx t tsb inOff outOff d1).inC =
          (decompLoop src fuel ctx t tsb inOff outOff d2).inC ∧
        ((decompLoop src fuel ctx t tsb inOff outOff d1).err = none →
          (decompLoop src fuel ctx t tsb inOff outOff d1).outW ≤ d1.length)) ∨
       (((decompLoop src fuel ctx t tsb inOff outOff d1).err = some .inputOverrun ∨
         (decompLoop src fuel ctx t tsb inOff outOff d1).err = some .outputOverrun) ∧
        ((decompLoop src fuel ctx t tsb inOff outOff d2).err = none →
          d1.length < (decompLoop src fuel ctx t tsb inOff outOff d2).outW))) := by
  intro fuel
  induction fuel with
  | zero =>
    intro ctx t tsb inOff outOff d1 d2 ho hlen
    exact Or.inr ⟨Or.inl rfl, fun h => Option.noConfusion h⟩
  | succ fuel ih =>
    intro ctx t tsb inOff outOff d1 d2 ho hlen
    have hlock := decompStep_lock src ctx t tsb inOff outOff d1 d2 ho hlen
    simp only [decompLoop]
    rcases hlock with ⟨d, dd, e, h1, h2⟩ | ⟨d, dd, oW, iC, h1, h2, hoW⟩ |
      ⟨c, t1, s, i, o, d, dd, h1, h2, ho1⟩ | ⟨d, e, h1, he, hr2⟩
    · rw [h1, h2]
      exact Or.inl ⟨rfl, rfl, rfl, fun h => Option.noConfusion h⟩
    · rw [h1, h2]
      exact Or.inl ⟨rfl, rfl, rfl, fun _ => hoW⟩
    · rw [h1, h2]
      have hd : d.length = d1.length := by
        have hl := decompStep_dstLen src ctx t tsb inOff outOff d1
        rw [h1] at hl
        exact hl
      have hdd : dd.length = d2.length := by
        have hl := decompStep_dstLen src ctx t tsb inOff outOff d2
        rw [h2] at hl
        exact hl
      have hih := ih c t1 s i o d dd (by omega) (by omega)
      rw [hd] at hih
      exact hih
    · rw [h1]
      refine Or.inr ⟨?_, ?_⟩
      · rcases he with he | he
        · subst he
          exact Or.inl rfl
        · subst he
          exact Or.inr rfl
      · intro h2none
        rcases hr2 with ⟨dd, ee, h2⟩ | ⟨c, t1, s, i, o, dd, h2, hno⟩
        · rw [h2] at h2none
          exact Option.noConfusion h2none
        · rw [h2] at h2none ⊢
          have := decompLoop_outW_mono src fuel c t1 s i o dd h2none
          show d1.length < (decompLoop src fuel c t1 s i o dd).outW
          omega

theorem decompressCore_dstLen (src dst : List Nat) :
    (decompressCore src dst).dst.length = dst.length := by
  simp only [decompressCore]
  by_cases h0 : src.length = 0
  · simp only [if_pos h0]
  · simp only [if_neg h0]
    by_cases h1 : 17 < listGet src 0
    · simp only [if_pos h1]
      by_cases hg : src.length < 1 + (listGet src 0 - 17) ∨ dst.length < listGet src 0 - 17
      · simp only [if_pos hg]
      · simp only [if_neg hg]
        by_cases heof : src.length ≤ 1 + (listGet src 0 - 17)
        · simp only [if_pos heof]
          exact copyFromSrc_length dst src 0 1 (listGet src 0 - 17)
        · simp only [if_neg heof]
          rw [decompLoop_dstLen]
          exact copyFromSrc_length dst src 0 1 (listGet src 0 - 17)
    · simp only [if_neg h1]
      exact decompLoop_dstLen src (src.length + 1) .beginLoop (listGet src 0) 0 1 0 dst

theorem decompressCore_lock (src : List Nat) (d1 d2 : List Nat)
    (hlen : d1.length ≤ d2.length) :
    (((decompressCore src d1).err = (decompressCore src d2).err ∧
      (decompressCore src d1).outW = (decompressCore src d2).outW ∧
      (decompressCore src d1).inC = (decompressCore src d2).inC ∧
      ((decompressCore src d1).err = none → (decompressCore src d1).outW ≤ d1.length)) ∨
     (((decompressCore src d1).err = some .inputOverrun ∨
       (decompressCore src d1).err = some .outputOverrun) ∧
      ((decompressCore src d2).err = none →
        d1.length < (decompressCore src d2).outW))) := by
  simp only [decompressCore]
  by_cases h0 : src.length = 0
  · rw [if_pos h0, if_pos h0]
    exact Or.inl ⟨rfl, rfl, rfl, fun h => Option.noConfusion h⟩
  · rw [if_neg h0, if_neg h0]
    by_cases h1 : 17 < listGet src 0
    · rw [if_pos h1, if_pos h1]
      by_cases hg1 : src.length < 1 + (listGet src 0 - 17) ∨ d1.length < listGet src 0 - 17
      · rw [if_pos hg1]
        by_cases hg2 : src.length < 1 + (listGet src 0 - 17) ∨ d2.length < listGet src 0 - 17
        · rw [if_pos hg2]
          exact Or.inl ⟨rfl, rfl, rfl, fun h => Option.noConfusion h⟩
        · rw [if_neg hg2]
          have hd1 : d1.length < listGet src 0 - 17 := by
            rcases hg1 with hg1 | hg1
            · exact absurd (Or.inl hg1) hg2
            · exact hg1
          by_cases heof : src.length ≤ 1 + (listGet src 0 - 17)
          · rw [if_pos heof]
            exact Or.inr ⟨Or.inl rfl, fun h => Option.noConfusion h⟩
          · rw [if_neg heof]
            refine Or.inr ⟨Or.inl rfl, fun h2none => ?_⟩
            have := decompLoop_outW_mono src (src.length + 1) .firstLiteralRun
              (listGet src (1 + (listGet src 0 - 17))) 0 (1 + (listGet src 0 - 17) + 1)
              (listGet src 0 - 17) (copyFromSrc d2 src 0 1 (listGet src 0 - 17)) h2none
            omega
      · have hg2 : ¬ (src.length < 1 + (listGet src 0 - 17) ∨
            d2.length < listGet src 0 - 17) := by
          push_neg at hg1 ⊢
          omega
        rw [if_neg hg1, if_neg hg2]
        by_cases heof : src.length ≤ 1 + (listGet src 0 - 17)
        · rw [if_pos heof, if_pos heof]
          exact Or.inl ⟨rfl, rfl, rfl, fun h => Option.noConfusion h⟩
        · rw [if_neg heof, if_neg heof]
          have hc1 : (copyFromSrc d1 src 0 1 (listGet src 0 - 17)).length = d1.length :=
            copyFromSrc_length d1 src 0 1 (listGet src 0 - 17)
          have hc2 : (copyFromSrc d2 src 0 1 (listGet src 0 - 17)).length = d2.length :=
            copyFromSrc_length d2 src 0 1 (listGet src 0 - 17)
          have hl := decompLoop_lock src (src.length + 1) .firstLiteralRun
            (listGet src (1 + (listGet src 0 - 17))) 0 (1 + (listGet src 0 - 17) + 1)
            (listGet src 0 - 17) (copyFromSrc d1 src 0 1 (listGet src 0 - 17))
            (copyFromSrc d2 src 0 1 (listGet src 0 - 17))
            (by rw [hc1]; push_neg at hg1; omega) (by rw [hc1, hc2]; exact hlen)
          rw [hc1] at hl
          exact hl
    · rw [if_neg h1, if_neg h1]
      exact decompLoop_lock src (src.length + 1) .beginLoop (listGet src 0) 0 1 0 d1 d2
        (by omega) hlen

/-- C2: output-bound safety.  A decoding run writes only inside the supplied
destination buffer (the returned buffer has the buffer's length), and a
successful run reports an output length that fits the buffer.  The decoded
stream does not depend on the buffer size: when a run on a larger buffer
succeeds with more output than a smaller buffer holds, the run on the smaller
buffer fails with `INPUT_OVERRUN` or `OUTPUT_OVERRUN`; when the successful
output fits the smaller buffer, the smaller run succeeds with the identical
output length and consumed count - the decoder never reports success with
truncated output. -/
theorem C2_output_bound_safety (src d1 d2 : List Nat) (hlen : d1.length ≤ d2.length) :
    (decompressCore src d1).dst.length = d1.length ∧
    ((decompressCore src d1).err = none → (decompressCore src d1).outW ≤ d1.length) ∧
    ((decompressCore src d2).err = none → d1.length < (decompressCore src d2).outW →
      (decompressCore src d1).err = some .inputOverrun ∨
      (decompressCore src d1).err = some .outputOverrun) ∧
    ((decompressCore src d2).err = none → (decompressCore src d2).outW ≤ d1.length →
      (decompressCore src d1).err = none ∧
      (decompressCore src d1).outW = (decompressCore src d2).outW ∧
      (decompressCore src d1).inC = (decompressCore src d2).inC) := by
  refine ⟨decompressCore_dstLen src d1, ?_, ?_, ?_⟩
  · intro h
    rcases decompressCore_lock src d1 d1 le_rfl with ⟨_, _, _, h4⟩ | ⟨h4, _⟩
    · exact h4 h
    · rcases h4 with h4 | h4 <;> rw [h] at h4 <;> exact Option.noConfusion h4
  · intro h2none h2big
    rcases decompressCore_lock src d1 d2 hlen with ⟨he, hw, _, h4⟩ | ⟨h4, _⟩
    · exfalso
      rw [h2none] at he
      have := h4 he
      rw [hw] at this
      omega
    · exact h4
  · intro h2none h2small
    rcases decompressCore_lock src d1 d2 hlen with ⟨he, hw, hc, _⟩ | ⟨_, h4⟩
    · rw [h2none] at he
      exact ⟨he, hw, hc⟩
    · exfalso
      have := h4 h2none
      omega

/-- C2 witness: the stream `[18, 7, 17, 0, 0]` (a one-byte initial literal run
followed by the terminator) succeeds on a one-byte destination with output
length 1; on the empty destination the same stream fails with an overrun
error. -/
theorem C2_output_bound_safety_witness :
    (decompressCore [18, 7, 17, 0, 0] []).err = some .inputOverrun ∨
    (decompressCore [18, 7, 17, 0, 0] []).err = some .outputOverrun :=
  (C2_output_bound_safety [18, 7, 17, 0, 0] [] [0] (by decide)).2.2.1
    (by decide) (by decide)

end Lzo
